import Mathlib

/-!
# The per-page layout pipeline of `src/page.cpp`

A shallow embedding of `vrv::Page` and of the part of `vrv::Doc` that the page
methods read and write.

* C++ `int` is `Int`; `/` on `int` truncates toward zero, which is `Int.tdiv`.
  The sums and differences of lengths computed in `page.cpp` (content width,
  page width, JustifyX target, the shift and the justifiable height of the
  system-stacking pass) are taken in 32-bit two's complement, `int32`.
* A page is identified by its index in the page sequence of the document
  (`this->GetIdx()`); `pages->GetFirst() == this` is `idx = 0`,
  `pages->GetLast() == this` is `idx + 1 = m_pages.length`, and
  `pages->GetPrevious(this)` is the page at `idx - 1`.
* A failed `assert` aborts the run: the stages return `Option Doc` and `none`
  is the abort.
* The functors that are declared outside `page.cpp` (`Object::JustifyX`,
  `Object::JustifyY`, the measurement probe `View::DrawCurrentPage`, ...) are
  taken as a parameter `Functors`; every theorem holds for all of them.
* `Doc.trace` is a ghost field: the sequence of stage entries, `Process` calls,
  measurement probes and `SetDrawingPage` calls, in execution order.
-/

namespace vrv

/-! ## Data model -/

/-- Modelled from the spec: the break/flow mode enumeration is declared outside
`page.cpp`; the source names only `BREAKS_none`. -/
inductive option_BREAKS where
  | BREAKS_none
  | BREAKS_other (code : Nat)
  deriving DecidableEq, Repr

/-- Modelled from the spec: the header option enumeration is declared outside
`page.cpp`; the source names only `HEADER_none`. -/
inductive option_HEADER where
  | HEADER_none
  | HEADER_other (code : Nat)
  deriving DecidableEq, Repr

/-- Modelled from the spec: the footer option enumeration is declared outside
`page.cpp`; the source names only `FOOTER_none`. -/
inductive option_FOOTER where
  | FOOTER_none
  | FOOTER_other (code : Nat)
  deriving DecidableEq, Repr

/-- The options read through `doc->GetOptions()` in `page.cpp`. -/
structure Options where
  m_breaks : option_BREAKS
  m_noJustification : Bool
  m_adjustPageWidth : Bool
  m_justifyVertically : Bool
  m_justifySystemsOnly : Bool
  m_justifyIncludeLastPage : Bool
  m_svgBoundingBoxes : Bool
  m_header : option_HEADER
  m_footer : option_FOOTER
  m_usePgHeaderForAll : Bool
  m_usePgFooterForAll : Bool
  m_evenNoteSpacing : Bool
  m_spacingDurDetection : Bool
  m_spacingSystem : Int
  m_spacingStaff : Int
  deriving DecidableEq, Repr

/-- A `System`, child of a page: the three members read by
`Page::GetContentWidth`, and `m_descendants`, the positions and bounding boxes
of everything below the system (staves, measures, layers, elements). -/
structure System where
  m_drawingTotalWidth : Int
  m_systemLeftMar : Int
  m_systemRightMar : Int
  m_descendants : List Int
  deriving DecidableEq, Repr

/-- A `RunningElement` (header or footer): the page it is attached to, its
vertical position, the value of `GetTotalHeight()`, and its content. -/
structure RunningElement where
  m_drawingPage : Option Nat
  m_drawingYRel : Int
  m_totalHeight : Int
  m_descendants : List Int
  deriving DecidableEq, Repr

/-- The members of `Page` used by the layout pipeline (`Page::Reset`). -/
structure Page where
  m_layoutDone : Bool
  m_drawingJustifiableHeight : Int
  m_drawingJustifiableSystems : Int
  m_drawingJustifiableStaves : Int
  m_children : List System
  deriving DecidableEq, Repr

/-- The four running elements of `doc->m_scoreDef`; `none` is a NULL pointer. -/
structure ScoreDef where
  pgHead : Option RunningElement
  pgHead2 : Option RunningElement
  pgFoot : Option RunningElement
  pgFoot2 : Option RunningElement
  deriving DecidableEq, Repr

/-- Which running element of the score definition a pointer designates. -/
inductive RunningSlot where
  | pgHead
  | pgHead2
  | pgFoot
  | pgFoot2
  deriving DecidableEq, Repr

/-- The mode of the bounding-box device context of a measurement probe:
`BBoxDeviceContext bBoxDC(&view, 0, 0, BBOX_HORIZONTAL_ONLY)` or the default
`BBoxDeviceContext bBoxDC(&view, 0, 0)`. -/
inductive BBoxMode where
  | BBOX_HORIZONTAL_ONLY
  | full
  deriving DecidableEq, Repr

/-- The functors run by `this->Process(...)` in `page.cpp`, each with the
parameter values that `page.cpp` itself stores in the functor's params. -/
inductive Pass where
  | resetHorizontalAlignment
  | resetVerticalAlignment
  | alignHorizontally
  | alignVertically (m_cumulatedShift : Option Int)
  | setAlignmentXPos (m_longestActualDur : Int)
  | setAlignmentPitchPos
  | calcStem
  | calcChordNoteHeads
  | calcDots
  | adjustLayers
  | adjustAccidX
  | adjustXPos
  | adjustGraceXPos
  | prepareProcessingLists
  | adjustSylSpacing (staff layer verse : Int)
  | adjustHarmGrpsSpacing
  | adjustArpeg
  | adjustTupletsX
  | adjustXOverflow (margin : Int)
  | alignMeasures
  | calcLedgerLines
  | calcArtic
  | adjustArticWithSlurs
  | adjustTupletsY
  | adjustSlurs
  | setOverflowBBoxes
  | adjustFloatingPositioners
  | adjustStaffOverlap
  | adjustYPos
  | adjustCrossStaffYPos
  | alignSystems (m_shift m_systemMargin : Int)
  | justifyX (m_systemFullWidth : Int)
  | justifyY (m_stepSize : Int)
  deriving DecidableEq, Repr

/-- The four stages called by `Page::LayOut`. -/
inductive Stage where
  | LayOutHorizontally
  | JustifyHorizontally
  | LayOutVertically
  | JustifyVertically
  deriving DecidableEq, Repr

/-- One entry of the execution trace. -/
inductive Event where
  | enter (stage : Stage) (page : Nat)
  | process (page : Nat) (pass : Pass)
  | draw (page : Nat) (mode : BBoxMode)
  | setDrawingPage (page : Nat)
  deriving DecidableEq, Repr

/-- The part of `Doc` used by `page.cpp`, with the ghost field `trace`.
`m_drawingPage` is the index of the active drawing page
(`doc->GetDrawingPage()`), `m_drawingUnit100` the value of
`doc->GetDrawingUnit(100)`. -/
structure Doc where
  m_options : Options
  m_pages : List Page
  m_drawingPage : Option Nat
  m_drawingPageWidth : Int
  m_drawingPageHeight : Int
  m_drawingPageMarginLeft : Int
  m_drawingPageMarginRight : Int
  m_drawingPageMarginTop : Int
  m_drawingPageMarginBot : Int
  m_drawingUnit100 : Int
  m_scoreDef : ScoreDef
  trace : List Event
  deriving DecidableEq, Repr

/-- The members of `AlignSystemsParams` written by `page.cpp`. -/
structure AlignSystemsParams where
  m_shift : Int
  m_systemMargin : Int
  m_justifiableSystems : Int
  m_justifiableStaves : Int
  deriving DecidableEq, Repr

/-- The code that `page.cpp` calls and that is declared outside it, as a
parameter: what a functor does to the children of the page it is run on, what
it does to a running element, what a measurement probe does, and the values
that `page.cpp` reads back from functor params. What a functor does is a
function of the params that `page.cpp` hands to it and of the subtree it
walks. -/
structure Functors where
  /-- Effect of `Object::Process` with the given functor on the children. -/
  visit : Pass → List System → List System
  /-- Effect of `header->Process(...)` with the given functor. -/
  visitRunning : Pass → RunningElement → RunningElement
  /-- Effect of `view.SetPage(idx, false); view.DrawCurrentPage(&bBoxDC, false)`. -/
  draw : BBoxMode → List System → List System
  /-- Effect of `RunningElement::AdjustRunningElementYPos`. -/
  AdjustRunningElementYPos : RunningElement → RunningElement
  /-- Value of `adjustSlursParams.m_adjusted` after the `AdjustSlurs` pass. -/
  m_adjusted : List System → Bool
  /-- Content of `m_verseTree` after `PrepareProcessingLists`: staff numbers,
  below each its layer numbers, below each its verse numbers. -/
  m_verseTree : List System → List (Int × List (Int × List Int))
  /-- Actual duration of the element found by
  `FindDescendantExtremeByComparison`, if there is one. -/
  longestDur : List System → Option Int
  /-- Effect of the `AlignSystems` functor on the children, with the params
  it receives and leaves. -/
  alignSystems : AlignSystemsParams → List System → AlignSystemsParams × List System
  /-- The constant `DUR_4`. -/
  DUR_4 : Int

/-! ## State access -/

/-- Append an entry to the trace. -/
def Doc.log (d : Doc) (e : Event) : Doc :=
  { d with trace := d.trace ++ [e] }

/-- Apply `f` to the page at `idx`. -/
def Doc.mapPage (d : Doc) (idx : Nat) (f : Page → Page) : Doc :=
  { d with m_pages := List.modify f idx d.m_pages }

/-- Apply `f` to the children of the page at `idx`. -/
def Doc.mapChildren (d : Doc) (idx : Nat) (f : List System → List System) : Doc :=
  d.mapPage idx fun p => { p with m_children := f p.m_children }

/-- The children of the page at `idx`. -/
def Doc.children (d : Doc) (idx : Nat) : List System :=
  match d.m_pages[idx]? with
  | some p => p.m_children
  | none => []

/-- The running element a slot designates. -/
def ScoreDef.get (s : ScoreDef) : RunningSlot → Option RunningElement
  | .pgHead => s.pgHead
  | .pgHead2 => s.pgHead2
  | .pgFoot => s.pgFoot
  | .pgFoot2 => s.pgFoot2

/-- Apply `f` to the running element a slot designates. -/
def ScoreDef.map (s : ScoreDef) (slot : RunningSlot) (f : RunningElement → RunningElement) :
    ScoreDef :=
  match slot with
  | .pgHead => { s with pgHead := s.pgHead.map f }
  | .pgHead2 => { s with pgHead2 := s.pgHead2.map f }
  | .pgFoot => { s with pgFoot := s.pgFoot.map f }
  | .pgFoot2 => { s with pgFoot2 := s.pgFoot2.map f }

/-- Apply `f` to a running element of the document; no slot, no change. -/
def Doc.mapRunning (d : Doc) (slot : Option RunningSlot)
    (f : RunningElement → RunningElement) : Doc :=
  match slot with
  | some s => { d with m_scoreDef := d.m_scoreDef.map s f }
  | none => d

/-- The value of `GetTotalHeight()` of the running element in a slot. -/
def Doc.totalHeight (d : Doc) (slot : RunningSlot) : Int :=
  match d.m_scoreDef.get slot with
  | some r => r.m_totalHeight
  | none => 0

/-- Modelled from the spec: `Doc::SetDrawingPage` is declared outside
`page.cpp`; the caller designates the active page before invoking any stage. -/
def Doc.SetDrawingPage (d : Doc) (idx : Nat) : Doc :=
  { d with m_drawingPage := some idx, trace := d.trace ++ [Event.setDrawingPage idx] }

/-! ## Machine integers -/

/-- The value of a C++ `int` expression whose exact value is `x`: `x` reduced
to the 32-bit two's complement range. -/
def int32 (x : Int) : Int :=
  (x + 2147483648) % 4294967296 - 2147483648

/-- The exact value `x` is representable as a C++ `int`. -/
def InInt32 (x : Int) : Prop :=
  -2147483648 ≤ x ∧ x < 2147483648

instance (x : Int) : Decidable (InInt32 x) :=
  inferInstanceAs (Decidable (-2147483648 ≤ x ∧ x < 2147483648))

/-! ## `Page` methods -/

/-- `Page::GetHeader` (page.cpp 80-97). `doc` is `none` when the page has no
`Doc` ancestor; the result is `none` for a NULL pointer. -/
def Page.GetHeader (doc : Option Doc) (idx : Nat) : Option RunningSlot :=
  match doc with
  | none => none
  | some d =>
    if d.m_options.m_header = option_HEADER.HEADER_none then none
    else if idx = 0 ∨ d.m_options.m_usePgHeaderForAll = true then
      (if d.m_scoreDef.pgHead.isSome then some RunningSlot.pgHead else none)
    else
      (if d.m_scoreDef.pgHead2.isSome then some RunningSlot.pgHead2 else none)

/-- `Page::GetFooter` (page.cpp 99-116). -/
def Page.GetFooter (doc : Option Doc) (idx : Nat) : Option RunningSlot :=
  match doc with
  | none => none
  | some d =>
    if d.m_options.m_footer = option_FOOTER.FOOTER_none then none
    else if idx = 0 ∨ d.m_options.m_usePgFooterForAll = true then
      (if d.m_scoreDef.pgFoot.isSome then some RunningSlot.pgFoot else none)
    else
      (if d.m_scoreDef.pgFoot2.isSome then some RunningSlot.pgFoot2 else none)

/-- `Page::CalcJustificationStepSize` (page.cpp 603-623). -/
def Page.CalcJustificationStepSize (p : Page) (systemsOnly : Bool) : Int :=
  if p.m_drawingJustifiableHeight < 0 then 0
  else
    let stepCount : Int :=
      if systemsOnly then p.m_drawingJustifiableSystems - 1
      else p.m_drawingJustifiableStaves - 1
    if stepCount = 0 then 0
    else Int.tdiv p.m_drawingJustifiableHeight stepCount

/-- The unit count selected by the `systemsOnly` flag: the justifiable system
count when it is set, the justifiable staff-gap count otherwise. -/
def Page.unitCount (p : Page) (systemsOnly : Bool) : Int :=
  if systemsOnly then p.m_drawingJustifiableSystems else p.m_drawingJustifiableStaves

/-- `Page::GetContentWidth` (page.cpp 582-601); `none` when an assertion
fails: no page at `idx`, `idx` not the active drawing page, or no first child.
The sum of the three `int` members is an `int` sum. -/
def Page.GetContentWidth (d : Doc) (idx : Nat) : Option Int :=
  match d.m_pages[idx]? with
  | none => none
  | some p =>
    if d.m_drawingPage ≠ some idx then none
    else
      match p.m_children.head? with
      | none => none
      | some first =>
        some (int32 (int32 (first.m_drawingTotalWidth + first.m_systemLeftMar)
          + first.m_systemRightMar))

/-! ## The traversal and the functor methods of `Page` -/

/-- Modelled from the spec: `Object::Process` is declared outside `page.cpp`.
It walks the tree depth-first, calling the visit callback on a node before
descending. This is the walk from a page for a functor that `Page` does not
override: the children are visited. -/
def Page.Process (F : Functors) (idx : Nat) (pass : Pass) (d : Doc) : Doc :=
  (d.log (Event.process idx pass)).mapChildren idx (F.visit pass)

/-- The measurement probe: `view.SetPage(this->GetIdx(), false);
view.DrawCurrentPage(&bBoxDC, false)`. -/
def Page.Draw (F : Functors) (idx : Nat) (mode : BBoxMode) (d : Doc) : Doc :=
  (d.log (Event.draw idx mode)).mapChildren idx (F.draw mode)

/-- `Page::ResetVerticalAlignment` (page.cpp 676-695). -/
def Page.ResetVerticalAlignment (F : Functors) (idx : Nat) (d : Doc) : Doc :=
  let d1 := d.mapRunning (Page.GetHeader (some d) idx) fun r =>
    { F.visitRunning Pass.resetVerticalAlignment r with
      m_drawingPage := none, m_drawingYRel := 0 }
  d1.mapRunning (Page.GetFooter (some d1) idx) fun r =>
    { F.visitRunning Pass.resetVerticalAlignment r with
      m_drawingPage := none, m_drawingYRel := 0 }

/-- The call `this->Process(&resetVerticalAlignment, NULL)`: the page is
visited by `Page::ResetVerticalAlignment`, then its children are. -/
def Page.ProcessResetVerticalAlignment (F : Functors) (idx : Nat) (d : Doc) : Doc :=
  (Page.ResetVerticalAlignment F idx
    (d.log (Event.process idx Pass.resetVerticalAlignment))).mapChildren idx
    (F.visit Pass.resetVerticalAlignment)

/-- `Page::AlignVerticallyEnd` (page.cpp 697-721). -/
def Page.AlignVerticallyEnd (F : Functors) (idx : Nat) (d : Doc) : Doc :=
  let m_cumulatedShift := d.m_options.m_spacingStaff * d.m_drawingUnit100
  let d1 := d.mapRunning (Page.GetHeader (some d) idx) fun r =>
    F.visitRunning (Pass.alignVertically (some m_cumulatedShift))
      { r with m_drawingPage := some idx, m_drawingYRel := 0 }
  d1.mapRunning (Page.GetFooter (some d1) idx) fun r =>
    F.visitRunning (Pass.alignVertically (some m_cumulatedShift))
      { r with m_drawingPage := some idx, m_drawingYRel := 0 }

/-- The call `this->Process(&alignVertically, &alignVerticallyParams,
&alignVerticallyEnd)`: the children are visited, then the page is left through
`Page::AlignVerticallyEnd`. -/
def Page.ProcessAlignVertically (F : Functors) (idx : Nat) (d : Doc) : Doc :=
  Page.AlignVerticallyEnd F idx
    ((d.log (Event.process idx (Pass.alignVertically none))).mapChildren idx
      (F.visit (Pass.alignVertically none)))

/-- `Page::AlignSystems` (page.cpp 723-744), in `int` arithmetic. -/
def Page.AlignSystems (idx : Nat) (params : AlignSystemsParams) (d : Doc) :
    AlignSystemsParams × Doc :=
  let params := { params with m_justifiableSystems := 0, m_justifiableStaves := 0 }
  let r1 : AlignSystemsParams × Doc :=
    match Page.GetHeader (some d) idx with
    | some header =>
      ({ params with m_shift := int32 (params.m_shift - d.totalHeight header) },
        d.mapRunning (some header) fun r => { r with m_drawingYRel := params.m_shift })
    | none => (params, d)
  let d2 := r1.2.mapRunning (Page.GetFooter (some r1.2) idx) fun r =>
    { r with m_drawingYRel :=
        int32 (int32 (r.m_totalHeight + r1.2.m_drawingPageMarginTop)
          + r1.2.m_drawingPageMarginBot) }
  (r1.1, d2)

/-- `Page::AlignSystemsEnd` (page.cpp 746-762), in `int` arithmetic. -/
def Page.AlignSystemsEnd (idx : Nat) (params : AlignSystemsParams) (d : Doc) : Doc :=
  let height :=
    int32 (int32 (params.m_shift - d.m_drawingPageMarginBot) - d.m_drawingPageMarginTop)
  let height :=
    match Page.GetFooter (some d) idx with
    | some footer => int32 (height - d.totalHeight footer)
    | none => height
  d.mapPage idx fun p =>
    { p with
      m_drawingJustifiableHeight := height
      m_drawingJustifiableSystems := params.m_justifiableSystems
      m_drawingJustifiableStaves := params.m_justifiableStaves }

/-- The call `this->Process(&alignSystems, &alignSystemsParams,
&alignSystemsEnd)`: `Page::AlignSystems` on entry, the children, then
`Page::AlignSystemsEnd` on exit. -/
def Page.ProcessAlignSystems (F : Functors) (idx : Nat) (params : AlignSystemsParams)
    (d : Doc) : Doc :=
  let r1 := Page.AlignSystems idx params
    (d.log (Event.process idx (Pass.alignSystems params.m_shift params.m_systemMargin)))
  let r2 := F.alignSystems r1.1 (r1.2.children idx)
  Page.AlignSystemsEnd idx r2.1 (r1.2.mapChildren idx fun _ => r2.2)

/-- `Page::AdjustSylSpacingByVerse` (page.cpp 625-654): one filtered pass for
each verse of each layer of each staff of the verse tree. -/
def Page.AdjustSylSpacingByVerse (F : Functors) (idx : Nat)
    (m_verseTree : List (Int × List (Int × List Int))) (d : Doc) : Doc :=
  m_verseTree.foldl (fun d1 staves =>
    staves.2.foldl (fun d2 layers =>
      layers.2.foldl (fun d3 verses =>
        Page.Process F idx (Pass.adjustSylSpacing staves.1 layers.1 verses) d3) d2) d1) d

/-! ## The four stages and `Page::LayOut` -/

/-- `Page::LayOutHorizontally` (page.cpp 218-361). -/
def Page.LayOutHorizontally (F : Functors) (idx : Nat) (d : Doc) : Option Doc :=
  match d.m_pages[idx]? with
  | none => none
  | some _ =>
    if d.m_drawingPage ≠ some idx then none
    else
      let d := d.log (Event.enter Stage.LayOutHorizontally idx)
      let d := Page.Process F idx Pass.resetHorizontalAlignment d
      let d := Page.ProcessResetVerticalAlignment F idx d
      let d := Page.Process F idx Pass.alignHorizontally d
      let d := Page.ProcessAlignVertically F idx d
      let d :=
        if d.m_options.m_evenNoteSpacing = false then
          let longestActualDur :=
            if d.m_options.m_spacingDurDetection = true then
              match F.longestDur (d.children idx) with
              | some dur => dur
              | none => F.DUR_4
            else F.DUR_4
          Page.Process F idx (Pass.setAlignmentXPos longestActualDur) d
        else d
      let d := Page.Process F idx Pass.setAlignmentPitchPos d
      let d := Page.Process F idx Pass.calcStem d
      let d := Page.Process F idx Pass.calcChordNoteHeads d
      let d := Page.Process F idx Pass.calcDots d
      let d := Page.Draw F idx BBoxMode.BBOX_HORIZONTAL_ONLY d
      let d := Page.Process F idx Pass.adjustLayers d
      let d := Page.Process F idx Pass.adjustAccidX d
      let d := Page.Process F idx Pass.adjustXPos d
      let d := Page.Process F idx Pass.adjustGraceXPos d
      let m_verseTree := F.m_verseTree (d.children idx)
      let d := Page.Process F idx Pass.prepareProcessingLists d
      let d := Page.AdjustSylSpacingByVerse F idx m_verseTree d
      let d := Page.Process F idx Pass.adjustHarmGrpsSpacing d
      let d := Page.Process F idx Pass.adjustArpeg d
      let d := Page.Process F idx Pass.adjustTupletsX d
      let d := Page.Process F idx (Pass.adjustXOverflow d.m_drawingUnit100) d
      let d := Page.Process F idx Pass.alignMeasures d
      some d

/-- `Page::LayOutVertically` (page.cpp 363-464). -/
def Page.LayOutVertically (F : Functors) (idx : Nat) (d : Doc) : Option Doc :=
  match d.m_pages[idx]? with
  | none => none
  | some _ =>
    if d.m_drawingPage ≠ some idx then none
    else
      let d := d.log (Event.enter Stage.LayOutVertically idx)
      let d := Page.ProcessResetVerticalAlignment F idx d
      let d := Page.Process F idx Pass.calcLedgerLines d
      let d := Page.ProcessAlignVertically F idx d
      let d := Page.Process F idx Pass.calcArtic d
      let d := Page.Draw F idx BBoxMode.full d
      let d := Page.Process F idx Pass.adjustArticWithSlurs d
      let d := Page.Process F idx Pass.adjustTupletsY d
      let m_adjusted := F.m_adjusted (d.children idx)
      let d := Page.Process F idx Pass.adjustSlurs d
      let d := if m_adjusted = true then Page.Draw F idx BBoxMode.full d else d
      let d := Page.Process F idx Pass.setOverflowBBoxes d
      let d := Page.Process F idx Pass.adjustFloatingPositioners d
      let d := Page.Process F idx Pass.adjustStaffOverlap d
      let d := Page.Process F idx Pass.adjustYPos d
      let d := Page.Process F idx Pass.adjustCrossStaffYPos d
      let d := d.mapRunning (Page.GetHeader (some d) idx) F.AdjustRunningElementYPos
      let d := d.mapRunning (Page.GetFooter (some d) idx) F.AdjustRunningElementYPos
      let d := Page.ProcessAlignSystems F idx
        { m_shift := d.m_drawingPageHeight
          m_systemMargin := d.m_options.m_spacingSystem * d.m_drawingUnit100
          m_justifiableSystems := 0
          m_justifiableStaves := 0 } d
      some d

/-- `Page::JustifyHorizontally` (page.cpp 466-488); the page width and the
JustifyX target are computed in `int` arithmetic. -/
def Page.JustifyHorizontally (F : Functors) (idx : Nat) (d : Doc) : Option Doc :=
  match d.m_pages[idx]? with
  | none => none
  | some _ =>
    let d := d.log (Event.enter Stage.JustifyHorizontally idx)
    if d.m_options.m_breaks = option_BREAKS.BREAKS_none
        ∨ d.m_options.m_noJustification = true then some d
    else if d.m_drawingPage ≠ some idx then none
    else
      let resized : Option Doc :=
        if d.m_options.m_adjustPageWidth = true then
          match Page.GetContentWidth d idx with
          | none => none
          | some width =>
            some { d with
              m_drawingPageWidth :=
                int32 (int32 (width + d.m_drawingPageMarginLeft) + d.m_drawingPageMarginRight) }
        else some d
      match resized with
      | none => none
      | some d =>
        some (Page.Process F idx
          (Pass.justifyX
            (int32 (int32 (d.m_drawingPageWidth - d.m_drawingPageMarginLeft)
              - d.m_drawingPageMarginRight))) d)

/-- The last-page lookback of `Page::JustifyVertically` (page.cpp 523-527):
a penultimate page that is not laid out is made the active drawing page and
laid out, and the last page is made the active drawing page again. -/
def Page.layOutPenultimate (LayOutPrevious : Doc → Option Doc) (idx : Nat) (pen : Page)
    (d : Doc) : Option Doc :=
  if pen.m_layoutDone = false then
    match LayOutPrevious (d.SetDrawingPage (idx - 1)) with
    | none => none
    | some d1 => some (d1.SetDrawingPage idx)
  else some d

/-- `Page::JustifyVertically` (page.cpp 490-540), with the call
`penultimatePage->LayOut()` as the parameter `LayOutPrevious`. -/
def Page.JustifyVerticallyWith (F : Functors) (LayOutPrevious : Doc → Option Doc)
    (idx : Nat) (d : Doc) : Option Doc :=
  match d.m_pages[idx]? with
  | none => none
  | some this =>
    if d.m_drawingPage ≠ some idx then none
    else
      let d := d.log (Event.enter Stage.JustifyVertically idx)
      if this.m_drawingJustifiableHeight < 0 then some d
      else if d.m_options.m_justifyVertically = false then some d
      else
        let systemsOnly := d.m_options.m_justifySystemsOnly
        let stepSize := this.CalcJustificationStepSize systemsOnly
        if idx + 1 = d.m_pages.length then
          if d.m_options.m_justifyIncludeLastPage = false then some d
          else if 0 < idx then
            match d.m_pages[idx - 1]? with
            | none => none
            | some penultimatePage =>
              match Page.layOutPenultimate LayOutPrevious idx penultimatePage d with
              | none => none
              | some d1 =>
                match d1.m_pages[idx - 1]? with
                | none => none
                | some penultimatePage1 =>
                  let previousStepSize :=
                    penultimatePage1.CalcJustificationStepSize systemsOnly
                  let stepSize :=
                    if previousStepSize < stepSize then previousStepSize else stepSize
                  some (Page.Process F idx (Pass.justifyY stepSize) d1)
          else some (Page.Process F idx (Pass.justifyY stepSize) d)
        else some (Page.Process F idx (Pass.justifyY stepSize) d)

/-- `Page::LayOut` (page.cpp 118-144), with the call `this->JustifyVertically()`
as the parameter `JustifyVertically`. -/
def Page.LayOutWith (F : Functors) (JustifyVertically : Doc → Option Doc)
    (idx : Nat) (force : Bool) (d : Doc) : Option Doc :=
  match d.m_pages[idx]? with
  | none => none
  | some this =>
    if this.m_layoutDone = true ∧ force = false then
      let d := d.mapRunning (Page.GetHeader (some d) idx) fun r =>
        { r with m_drawingPage := some idx }
      let d := d.mapRunning (Page.GetFooter (some d) idx) fun r =>
        { r with m_drawingPage := some idx }
      some d
    else
      match Page.LayOutHorizontally F idx d with
      | none => none
      | some d1 =>
        match Page.JustifyHorizontally F idx d1 with
        | none => none
        | some d2 =>
          match Page.LayOutVertically F idx d2 with
          | none => none
          | some d3 =>
            match JustifyVertically d3 with
            | none => none
            | some d4 =>
              let d5 :=
                if d4.m_options.m_svgBoundingBoxes = true then
                  Page.Draw F idx BBoxMode.full d4
                else d4
              some (d5.mapPage idx fun p => { p with m_layoutDone := true })

/-- `Page::LayOut(bool force)` for the page at `idx`. `Page::LayOut` and
`Page::JustifyVertically` call each other; the only call back into
`Page::LayOut` is `penultimatePage->LayOut()` on the page at `idx - 1`, under
the guard `idx > 0`, so the recursion is on the page index. `force` defaults
to `false` in that call. -/
def Page.LayOut (F : Functors) : Nat → Bool → Doc → Option Doc
  | 0, force, d =>
    Page.LayOutWith F (Page.JustifyVerticallyWith F (fun _ => none) 0) 0 force d
  | k + 1, force, d =>
    Page.LayOutWith F
      (Page.JustifyVerticallyWith F (fun d1 => Page.LayOut F k false d1) (k + 1))
      (k + 1) force d

/-- `Page::JustifyVertically` for the page at `idx`. -/
def Page.JustifyVertically (F : Functors) : Nat → Doc → Option Doc
  | 0, d => Page.JustifyVerticallyWith F (fun _ => none) 0 d
  | k + 1, d => Page.JustifyVerticallyWith F (fun d1 => Page.LayOut F k false d1) (k + 1) d

/-! ## Reading the trace -/

/-- The stages entered on the page `idx`, in execution order. -/
def stagesOf (idx : Nat) : List Event → List Stage
  | [] => []
  | Event.enter s p :: es => if p = idx then s :: stagesOf idx es else stagesOf idx es
  | _ :: es => stagesOf idx es

/-- What no stage of the pipeline changes: the number of pages, the options
and the active drawing page. -/
def Doc.Frame (d d1 : Doc) : Prop :=
  d1.m_pages.length = d.m_pages.length ∧ d1.m_options = d.m_options
    ∧ d1.m_drawingPage = d.m_drawingPage

/-- A step that keeps the frame and enters no stage: it only appends trace
entries other than stage entries. -/
def Doc.Quiet (d d1 : Doc) : Prop :=
  d.Frame d1 ∧ ∃ evs, d1.trace = d.trace ++ evs ∧ ∀ j, stagesOf j evs = []

/-- A step that keeps the frame and enters stages only on pages below
`bound`. -/
def Doc.Below (bound : Nat) (d d1 : Doc) : Prop :=
  d.Frame d1 ∧ ∃ evs, d1.trace = d.trace ++ evs ∧ ∀ j, bound ≤ j → stagesOf j evs = []

/-- The functors and probes that do nothing to the tree. -/
def Functors.idle : Functors where
  visit := fun _ ss => ss
  visitRunning := fun _ r => r
  draw := fun _ ss => ss
  AdjustRunningElementYPos := fun r => r
  m_adjusted := fun _ => false
  m_verseTree := fun _ => []
  longestDur := fun _ => none
  alignSystems := fun params ss => (params, ss)
  DUR_4 := 4

/-- The document with the justify-include-last-page option set to `b`. -/
def Doc.withJustifyIncludeLastPage (d : Doc) (b : Bool) : Doc :=
  { d with m_options := { d.m_options with m_justifyIncludeLastPage := b } }

/-- `Page::LayOut(false)` invoked `n` times in a row on the page at `idx`. -/
def Page.LayOutTimes (F : Functors) (idx : Nat) : Nat → Doc → Option Doc
  | 0, d => some d
  | n + 1, d =>
    match Page.LayOut F idx false d with
    | none => none
    | some d1 => Page.LayOutTimes F idx n d1

/-- The state in which `Page::JustifyVertically` on the page at `idx` reaches
the JustifyY pass when that page is the last one: the stage entry is recorded
and the lookback has been through `penultimatePage`. -/
def Page.lookedBack (F : Functors) (k : Nat) (penultimatePage : Page) (d : Doc) : Option Doc :=
  Page.layOutPenultimate (fun x => Page.LayOut F k false x) (k + 1) penultimatePage
    (d.log (Event.enter Stage.JustifyVertically (k + 1)))

/-- The running element that a pointer returned by `Page::GetHeader` or
`Page::GetFooter` designates; `none` is the NULL pointer. -/
def Doc.running (d : Doc) (slot : Option RunningSlot) : Option RunningElement :=
  match slot with
  | some s => d.m_scoreDef.get s
  | none => none

/-- The total height of the header of the page at `idx`, 0 without a header. -/
def Page.headerHeight (d : Doc) (idx : Nat) : Int :=
  match Page.GetHeader (some d) idx with
  | some header => d.totalHeight header
  | none => 0

/-- The total height of the footer of the page at `idx`, 0 without a footer. -/
def Page.footerHeight (d : Doc) (idx : Nat) : Int :=
  match Page.GetFooter (some d) idx with
  | some footer => d.totalHeight footer
  | none => 0

/-- The measurement probes run on the page `idx`: the number of `draw`
entries for that page. -/
def probesOf (idx : Nat) : List Event → Nat
  | [] => 0
  | Event.draw p _ :: es => if p = idx then probesOf idx es + 1 else probesOf idx es
  | _ :: es => probesOf idx es

/-- The first part of `Page::LayOutVertically` (page.cpp 372-409): from the
stage entry up to the point where the `AdjustSlurs` pass starts. -/
def Page.LayOutVerticallyToSlurs (F : Functors) (idx : Nat) (d : Doc) : Doc :=
  let d := d.log (Event.enter Stage.LayOutVertically idx)
  let d := Page.ProcessResetVerticalAlignment F idx d
  let d := Page.Process F idx Pass.calcLedgerLines d
  let d := Page.ProcessAlignVertically F idx d
  let d := Page.Process F idx Pass.calcArtic d
  let d := Page.Draw F idx BBoxMode.full d
  let d := Page.Process F idx Pass.adjustArticWithSlurs d
  Page.Process F idx Pass.adjustTupletsY d

/-- The second part of `Page::LayOutVertically` (page.cpp 411-463): the
`AdjustSlurs` pass and everything after it. -/
def Page.LayOutVerticallyFromSlurs (F : Functors) (idx : Nat) (d : Doc) : Doc :=
  let m_adjusted := F.m_adjusted (d.children idx)
  let d := Page.Process F idx Pass.adjustSlurs d
  let d := if m_adjusted = true then Page.Draw F idx BBoxMode.full d else d
  let d := Page.Process F idx Pass.setOverflowBBoxes d
  let d := Page.Process F idx Pass.adjustFloatingPositioners d
  let d := Page.Process F idx Pass.adjustStaffOverlap d
  let d := Page.Process F idx Pass.adjustYPos d
  let d := Page.Process F idx Pass.adjustCrossStaffYPos d
  let d := d.mapRunning (Page.GetHeader (some d) idx) F.AdjustRunningElementYPos
  let d := d.mapRunning (Page.GetFooter (some d) idx) F.AdjustRunningElementYPos
  Page.ProcessAlignSystems F idx
    { m_shift := d.m_drawingPageHeight
      m_systemMargin := d.m_options.m_spacingSystem * d.m_drawingUnit100
      m_justifiableSystems := 0
      m_justifiableStaves := 0 } d

/-! ## Concrete documents used as witnesses -/

/-- A system of total width 1500 with system margins 200 and 100. -/
def exampleSystem : System :=
  { m_drawingTotalWidth := 1500, m_systemLeftMar := 200, m_systemRightMar := 100,
    m_descendants := [0, 10, 20] }

/-- A page with the given justification metadata and one system. -/
def examplePage (done : Bool) (height systems staves : Int) : Page :=
  { m_layoutDone := done, m_drawingJustifiableHeight := height,
    m_drawingJustifiableSystems := systems, m_drawingJustifiableStaves := staves,
    m_children := [exampleSystem] }

/-- A page whose single system has total width 1200 and system margins 200
and 100, so that its content width is 1500. -/
def exampleNarrowPage : Page :=
  { m_layoutDone := false, m_drawingJustifiableHeight := 0,
    m_drawingJustifiableSystems := 0, m_drawingJustifiableStaves := 0,
    m_children := [{ exampleSystem with m_drawingTotalWidth := 1200 }] }

/-- Options with both justifications enabled, systems only, last page included. -/
def exampleOptions : Options :=
  { m_breaks := option_BREAKS.BREAKS_other 1, m_noJustification := false,
    m_adjustPageWidth := false, m_justifyVertically := true,
    m_justifySystemsOnly := true, m_justifyIncludeLastPage := true,
    m_svgBoundingBoxes := false, m_header := option_HEADER.HEADER_none,
    m_footer := option_FOOTER.FOOTER_none, m_usePgHeaderForAll := false,
    m_usePgFooterForAll := false, m_evenNoteSpacing := false,
    m_spacingDurDetection := false, m_spacingSystem := 3, m_spacingStaff := 8 }

/-- A document of page width 2000 and margins 100 with the given pages, the
page at `active` being the active drawing page. -/
def exampleDoc (opts : Options) (pages : List Page) (active : Nat) : Doc :=
  { m_options := opts, m_pages := pages, m_drawingPage := some active,
    m_drawingPageWidth := 2000, m_drawingPageHeight := 3000,
    m_drawingPageMarginLeft := 100, m_drawingPageMarginRight := 100,
    m_drawingPageMarginTop := 50, m_drawingPageMarginBot := 50,
    m_drawingUnit100 := 9,
    m_scoreDef := { pgHead := none, pgHead2 := none, pgFoot := none, pgFoot2 := none },
    trace := [] }

/-- Two pages, neither laid out; the last page is the active drawing page and
has justifiable height 500 with 3 justifiable systems. -/
def exampleTwoPages (opts : Options) (active : Nat) : Doc :=
  exampleDoc opts [examplePage false 0 0 0, examplePage false 500 3 4] active

/-- A document with one laid-out page, a header and a footer configured, the
header and the footer not attached to any page. -/
def exampleDonePage : Doc :=
  { exampleDoc
      { exampleOptions with
        m_header := option_HEADER.HEADER_other 1, m_footer := option_FOOTER.FOOTER_other 1 }
      [examplePage true 300 3 4] 0 with
    m_scoreDef :=
      { pgHead := some { m_drawingPage := none, m_drawingYRel := 0, m_totalHeight := 40,
                         m_descendants := [1] }
        pgHead2 := none
        pgFoot := some { m_drawingPage := none, m_drawingYRel := 0, m_totalHeight := 30,
                         m_descendants := [2] }
        pgFoot2 := none } }

/-- Functors whose system-stacking pass counts three systems and four staves
and moves the shift down to 400, and that do nothing else. -/
def exampleFunctors : Functors :=
  { Functors.idle with
    alignSystems := fun params ss =>
      ({ params with m_shift := 400, m_justifiableSystems := 3, m_justifiableStaves := 4 }, ss) }

/-- Functors whose system-stacking pass moves the shift down by 500 for each
system and counts one justifiable system and two justifiable staves for each,
and that do nothing else. -/
def exampleStacking : Functors :=
  { Functors.idle with
    alignSystems := fun params ss =>
      ({ params with
          m_shift := params.m_shift - 500 * ss.length
          m_justifiableSystems := params.m_justifiableSystems + ss.length
          m_justifiableStaves := params.m_justifiableStaves + 2 * ss.length }, ss) }

/-- Functors whose `AdjustSlurs` pass reports an adjustment, and that do
nothing else. -/
def exampleSlurs : Functors :=
  { Functors.idle with m_adjusted := fun _ => true }

/-- The two-page document after the stage entry and the lookback of
`Page::JustifyVertically` on its last page: the first page has been laid out. -/
def exampleLookedBack : Doc :=
  match Page.lookedBack exampleFunctors 0 (examplePage false 0 0 0)
      (exampleTwoPages exampleOptions 1) with
  | some d1 => d1
  | none => exampleTwoPages exampleOptions 1

/-! ## The justification step size -/

/-- C1 (the code departs from the claim): a page with justifiable height 300
and no justifiable system has a selected unit count of 0, which is at most 1,
and `Page::CalcJustificationStepSize` returns -300 for it, not 0: the guard
`stepCount == 0` catches a unit count of 1 only. -/
theorem CalcJustificationStepSize_unitCount_zero :
    (examplePage false 300 0 4).unitCount true ≤ 1
      ∧ (examplePage false 300 0 4).CalcJustificationStepSize true = -300 := by
  decide

/-- C2 (the code departs from the claim): with justifiable height 300 and a
justifiable staff-gap count of 0, `Page::CalcJustificationStepSize(false)`
divides by a step count of -1 and returns a negative value. -/
theorem CalcJustificationStepSize_negative :
    (examplePage false 300 3 0).CalcJustificationStepSize false < 0 := by
  decide

/-- C3: for a justifiable height `H ≥ 0` and a selected unit count `n ≥ 2`,
`Page::CalcJustificationStepSize` returns the integer quotient `H / (n - 1)`
(the truncating and the flooring quotient agree there); with 3 justifiable
systems and height 300 in systems-only mode the result is 150. -/
theorem CalcJustificationStepSize_quotient (p : Page) (systemsOnly : Bool)
    (hH : 0 ≤ p.m_drawingJustifiableHeight) (hn : 2 ≤ p.unitCount systemsOnly) :
    p.CalcJustificationStepSize systemsOnly
        = p.m_drawingJustifiableHeight / (p.unitCount systemsOnly - 1)
      ∧ p.CalcJustificationStepSize systemsOnly
        = Int.tdiv p.m_drawingJustifiableHeight (p.unitCount systemsOnly - 1)
      ∧ (systemsOnly = true → p.m_drawingJustifiableSystems = 3 →
          p.m_drawingJustifiableHeight = 300 →
          p.CalcJustificationStepSize systemsOnly = 150) := by
  have hcount : (if systemsOnly = true then p.m_drawingJustifiableSystems - 1
      else p.m_drawingJustifiableStaves - 1) = p.unitCount systemsOnly - 1 := by
    unfold Page.unitCount
    split <;> rfl
  have hpos : 0 < p.unitCount systemsOnly - 1 := by omega
  have htdiv : p.CalcJustificationStepSize systemsOnly
      = Int.tdiv p.m_drawingJustifiableHeight (p.unitCount systemsOnly - 1) := by
    unfold Page.CalcJustificationStepSize
    rw [if_neg (not_lt.mpr hH)]
    simp only [hcount]
    rw [if_neg (ne_of_gt hpos)]
  refine ⟨?_, htdiv, ?_⟩
  · rw [htdiv]
    exact Int.tdiv_eq_ediv hH (le_of_lt hpos)
  · intro hs h3 h300
    rw [htdiv]
    subst hs
    simp only [Page.unitCount, if_true, h3, h300]
    decide

/-- Witness for C3: the page with 3 justifiable systems and height 300. -/
theorem CalcJustificationStepSize_quotient_witness :
    (examplePage false 300 3 4).CalcJustificationStepSize true = 300 / (3 - 1)
      ∧ (examplePage false 300 3 4).CalcJustificationStepSize true = 150 :=
  have h := CalcJustificationStepSize_quotient (examplePage false 300 3 4) true
    (by decide) (by decide)
  ⟨h.1, h.2.2 rfl rfl rfl⟩

/-! ## Frame and trace lemmas -/

theorem stagesOf_append (j : Nat) (xs ys : List Event) :
    stagesOf j (xs ++ ys) = stagesOf j xs ++ stagesOf j ys := by
  induction xs with
  | nil => rfl
  | cons e es ih =>
    cases e with
    | enter s p =>
      by_cases h : p = j
      · simp [stagesOf, h, ih]
      · simp [stagesOf, h, ih]
    | process p q => simpa [stagesOf] using ih
    | draw p m => simpa [stagesOf] using ih
    | setDrawingPage p => simpa [stagesOf] using ih

theorem Doc.Frame.same (d : Doc) : d.Frame d := ⟨rfl, rfl, rfl⟩

theorem Doc.Frame.andThen {a b c : Doc} (h1 : a.Frame b) (h2 : b.Frame c) : a.Frame c :=
  ⟨h2.1.trans h1.1, h2.2.1.trans h1.2.1, h2.2.2.trans h1.2.2⟩

theorem Doc.Quiet.stay (d : Doc) : d.Quiet d :=
  ⟨Doc.Frame.same d, [], by simp, fun _ => rfl⟩

theorem Doc.Quiet.seq {a b c : Doc} (h1 : a.Quiet b) (h2 : b.Quiet c) : a.Quiet c := by
  obtain ⟨f1, e1, t1, s1⟩ := h1
  obtain ⟨f2, e2, t2, s2⟩ := h2
  refine ⟨f1.andThen f2, e1 ++ e2, ?_, ?_⟩
  · rw [t2, t1, List.append_assoc]
  · intro j
    rw [stagesOf_append, s1, s2]
    rfl

theorem Doc.quiet_mapPage (d : Doc) (idx : Nat) (f : Page → Page) :
    d.Quiet (d.mapPage idx f) :=
  ⟨⟨by simp [Doc.mapPage], rfl, rfl⟩, [], by simp [Doc.mapPage], fun _ => rfl⟩

theorem Doc.quiet_mapChildren (d : Doc) (idx : Nat) (f : List System → List System) :
    d.Quiet (d.mapChildren idx f) :=
  Doc.quiet_mapPage d idx _

theorem Doc.quiet_mapRunning (d : Doc) (slot : Option RunningSlot)
    (f : RunningElement → RunningElement) : d.Quiet (d.mapRunning slot f) := by
  cases slot with
  | none => exact Doc.Quiet.stay d
  | some s => exact ⟨⟨rfl, rfl, rfl⟩, [], by simp [Doc.mapRunning], fun _ => rfl⟩

theorem Doc.quiet_log_process (d : Doc) (idx : Nat) (pass : Pass) :
    d.Quiet (d.log (Event.process idx pass)) :=
  ⟨⟨rfl, rfl, rfl⟩, [Event.process idx pass], rfl, fun _ => rfl⟩

theorem Doc.quiet_log_draw (d : Doc) (idx : Nat) (mode : BBoxMode) :
    d.Quiet (d.log (Event.draw idx mode)) :=
  ⟨⟨rfl, rfl, rfl⟩, [Event.draw idx mode], rfl, fun _ => rfl⟩

theorem Page.quiet_Process (F : Functors) (idx : Nat) (pass : Pass) (d : Doc) :
    d.Quiet (Page.Process F idx pass d) :=
  (Doc.quiet_log_process d idx pass).seq (Doc.quiet_mapChildren _ idx _)

theorem Page.quiet_Draw (F : Functors) (idx : Nat) (mode : BBoxMode) (d : Doc) :
    d.Quiet (Page.Draw F idx mode d) :=
  (Doc.quiet_log_draw d idx mode).seq (Doc.quiet_mapChildren _ idx _)

theorem Page.quiet_ProcessResetVerticalAlignment (F : Functors) (idx : Nat) (d : Doc) :
    d.Quiet (Page.ProcessResetVerticalAlignment F idx d) :=
  ((Doc.quiet_log_process d idx _).seq
    ((Doc.quiet_mapRunning _ _ _).seq (Doc.quiet_mapRunning _ _ _))).seq
    (Doc.quiet_mapChildren _ idx _)

theorem Page.quiet_ProcessAlignVertically (F : Functors) (idx : Nat) (d : Doc) :
    d.Quiet (Page.ProcessAlignVertically F idx d) :=
  ((Doc.quiet_log_process d idx _).seq (Doc.quiet_mapChildren _ idx _)).seq
    ((Doc.quiet_mapRunning _ _ _).seq (Doc.quiet_mapRunning _ _ _))

theorem Page.quiet_AlignSystems (idx : Nat) (params : AlignSystemsParams) (d : Doc) :
    d.Quiet (Page.AlignSystems idx params d).2 := by
  unfold Page.AlignSystems
  refine Doc.Quiet.seq ?_ (Doc.quiet_mapRunning _ _ _)
  cases Page.GetHeader (some d) idx with
  | none => exact Doc.Quiet.stay d
  | some h => exact Doc.quiet_mapRunning d (some h) _

theorem Page.quiet_ProcessAlignSystems (F : Functors) (idx : Nat)
    (params : AlignSystemsParams) (d : Doc) :
    d.Quiet (Page.ProcessAlignSystems F idx params d) :=
  ((Doc.quiet_log_process d idx _).seq (Page.quiet_AlignSystems idx params _)).seq
    ((Doc.quiet_mapChildren _ idx _).seq (Doc.quiet_mapPage _ idx _))

theorem Page.quiet_AdjustSylSpacingByVerse (F : Functors) (idx : Nat)
    (tree : List (Int × List (Int × List Int))) (d : Doc) :
    d.Quiet (Page.AdjustSylSpacingByVerse F idx tree d) := by
  unfold Page.AdjustSylSpacingByVerse
  induction tree generalizing d with
  | nil => exact Doc.Quiet.stay d
  | cons st rest ih =>
    rw [List.foldl_cons]
    refine Doc.Quiet.seq ?_ (ih _)
    generalize st.2 = layers
    induction layers generalizing d with
    | nil => exact Doc.Quiet.stay d
    | cons la more ih2 =>
      rw [List.foldl_cons]
      refine Doc.Quiet.seq ?_ (ih2 _)
      generalize la.2 = verses
      induction verses generalizing d with
      | nil => exact Doc.Quiet.stay d
      | cons v vs ih3 =>
        rw [List.foldl_cons]
        exact (Page.quiet_Process F idx _ d).seq (ih3 _)

theorem Page.LayOutHorizontally_quiet (F : Functors) (idx : Nat) (d d1 : Doc)
    (h : Page.LayOutHorizontally F idx d = some d1) :
    (d.log (Event.enter Stage.LayOutHorizontally idx)).Quiet d1 := by
  unfold Page.LayOutHorizontally at h
  split at h
  · exact absurd h (by simp)
  · split at h
    · exact absurd h (by simp)
    · simp only [Option.some.injEq] at h
      subst h
      repeat first
        | with_reducible exact Doc.Quiet.stay _
        | with_reducible refine Doc.Quiet.seq ?_ (Page.quiet_Process F idx _ _)
        | with_reducible refine Doc.Quiet.seq ?_ (Page.quiet_Draw F idx _ _)
        | with_reducible refine Doc.Quiet.seq ?_ (Page.quiet_ProcessResetVerticalAlignment F idx _)
        | with_reducible refine Doc.Quiet.seq ?_ (Page.quiet_ProcessAlignVertically F idx _)
        | with_reducible refine Doc.Quiet.seq ?_ (Page.quiet_AdjustSylSpacingByVerse F idx _ _)
        | split

theorem Page.LayOutHorizontally_isSome (F : Functors) (idx : Nat) (d : Doc)
    (hp : idx < d.m_pages.length) (hdraw : d.m_drawingPage = some idx) :
    ∃ d1, Page.LayOutHorizontally F idx d = some d1 := by
  unfold Page.LayOutHorizontally
  rw [List.getElem?_eq_getElem hp]
  simp only [hdraw, ne_eq, not_true_eq_false, if_false]
  exact ⟨_, rfl⟩

theorem Page.LayOutVertically_quiet (F : Functors) (idx : Nat) (d d1 : Doc)
    (h : Page.LayOutVertically F idx d = some d1) :
    (d.log (Event.enter Stage.LayOutVertically idx)).Quiet d1 := by
  unfold Page.LayOutVertically at h
  split at h
  · exact absurd h (by simp)
  · split at h
    · exact absurd h (by simp)
    · simp only [Option.some.injEq] at h
      subst h
      repeat first
        | with_reducible exact Doc.Quiet.stay _
        | with_reducible refine Doc.Quiet.seq ?_ (Page.quiet_Process F idx _ _)
        | with_reducible refine Doc.Quiet.seq ?_ (Page.quiet_Draw F idx _ _)
        | with_reducible refine Doc.Quiet.seq ?_ (Page.quiet_ProcessResetVerticalAlignment F idx _)
        | with_reducible refine Doc.Quiet.seq ?_ (Page.quiet_ProcessAlignVertically F idx _)
        | with_reducible refine Doc.Quiet.seq ?_ (Page.quiet_ProcessAlignSystems F idx _ _)
        | with_reducible refine Doc.Quiet.seq ?_ (Doc.quiet_mapRunning _ _ _)
        | split

theorem Page.LayOutVertically_isSome (F : Functors) (idx : Nat) (d : Doc)
    (hp : idx < d.m_pages.length) (hdraw : d.m_drawingPage = some idx) :
    ∃ d1, Page.LayOutVertically F idx d = some d1 := by
  unfold Page.LayOutVertically
  rw [List.getElem?_eq_getElem hp]
  simp only [hdraw, ne_eq, not_true_eq_false, if_false]
  exact ⟨_, rfl⟩

theorem Doc.Quiet.below {a b : Doc} (bound : Nat) (h : a.Quiet b) : Doc.Below bound a b :=
  ⟨h.1, h.2.imp fun _ he => ⟨he.1, fun j _ => he.2 j⟩⟩

theorem Doc.Below.chain {bound : Nat} {a b c : Doc} (h1 : Doc.Below bound a b)
    (h2 : Doc.Below bound b c) : Doc.Below bound a c := by
  obtain ⟨f1, e1, t1, s1⟩ := h1
  obtain ⟨f2, e2, t2, s2⟩ := h2
  refine ⟨f1.andThen f2, e1 ++ e2, ?_, ?_⟩
  · rw [t2, t1, List.append_assoc]
  · intro j hj
    rw [stagesOf_append, s1 j hj, s2 j hj]
    rfl

theorem Doc.Below.mono {m n : Nat} {a b : Doc} (hmn : m ≤ n) (h : Doc.Below m a b) :
    Doc.Below n a b :=
  ⟨h.1, h.2.imp fun _ he => ⟨he.1, fun j hj => he.2 j (le_trans hmn hj)⟩⟩

theorem Page.JustifyHorizontally_quiet (F : Functors) (idx : Nat) (d d1 : Doc)
    (h : Page.JustifyHorizontally F idx d = some d1) :
    (d.log (Event.enter Stage.JustifyHorizontally idx)).Quiet d1 := by
  unfold Page.JustifyHorizontally at h
  split at h
  · exact absurd h (by simp)
  · simp only at h
    split at h
    · simp only [Option.some.injEq] at h
      subst h
      exact Doc.Quiet.stay _
    · split at h
      · exact absurd h (by simp)
      · split at h
        · exact absurd h (by simp)
        · rename_i d2 hres
          simp only [Option.some.injEq] at h
          subst h
          refine Doc.Quiet.seq ?_ (Page.quiet_Process F idx _ _)
          split at hres
          · split at hres
            · exact absurd hres (by simp)
            · simp only [Option.some.injEq] at hres
              subst hres
              exact ⟨⟨rfl, rfl, rfl⟩, [], by simp, fun _ => rfl⟩
          · simp only [Option.some.injEq] at hres
            subst hres
            exact Doc.Quiet.stay _

theorem Page.JustifyHorizontally_isSome (F : Functors) (idx : Nat) (d : Doc)
    (hp : idx < d.m_pages.length) (hdraw : d.m_drawingPage = some idx)
    (hauto : d.m_options.m_adjustPageWidth = false) :
    ∃ d1, Page.JustifyHorizontally F idx d = some d1 := by
  unfold Page.JustifyHorizontally
  rw [List.getElem?_eq_getElem hp]
  simp only [Doc.log, hdraw, hauto, ne_eq, not_true_eq_false, if_false, Bool.false_eq_true]
  split
  · exact ⟨_, rfl⟩
  · exact ⟨_, rfl⟩

theorem Page.layOutPenultimate_below (LP : Doc → Option Doc) (idx : Nat) (pen : Page)
    (d d1 : Doc) (hdraw : d.m_drawingPage = some idx)
    (hLP : ∀ x x1, LP x = some x1 → Doc.Below idx x x1)
    (h : Page.layOutPenultimate LP idx pen d = some d1) : Doc.Below idx d d1 := by
  unfold Page.layOutPenultimate at h
  split at h
  · split at h
    · exact absurd h (by simp)
    · rename_i x1 hx
      simp only [Option.some.injEq] at h
      subst h
      obtain ⟨⟨hlen, hopt, _⟩, evs, htr, hst⟩ := hLP _ _ hx
      refine ⟨⟨hlen, hopt, hdraw.symm⟩,
        [Event.setDrawingPage (idx - 1)] ++ evs ++ [Event.setDrawingPage idx], ?_, ?_⟩
      · simp [Doc.SetDrawingPage, htr]
      · intro j hj
        rw [stagesOf_append, stagesOf_append, hst j hj]
        rfl
  · simp only [Option.some.injEq] at h
    subst h
    exact (Doc.Quiet.stay d).below idx

theorem Page.JustifyVerticallyWith_below (F : Functors) (LP : Doc → Option Doc)
    (idx : Nat) (d d1 : Doc)
    (hLP : ∀ x x1, LP x = some x1 → Doc.Below idx x x1)
    (h : Page.JustifyVerticallyWith F LP idx d = some d1) :
    Doc.Below idx (d.log (Event.enter Stage.JustifyVertically idx)) d1 := by
  unfold Page.JustifyVerticallyWith at h
  split at h
  · exact absurd h (by simp)
  · split at h
    · exact absurd h (by simp)
    · rename_i hdraw
      simp only [ne_eq, not_not] at hdraw
      simp only at h
      split at h
      · simp only [Option.some.injEq] at h
        subst h
        exact (Doc.Quiet.stay _).below idx
      · split at h
        · simp only [Option.some.injEq] at h
          subst h
          exact (Doc.Quiet.stay _).below idx
        · split at h
          · split at h
            · simp only [Option.some.injEq] at h
              subst h
              exact (Doc.Quiet.stay _).below idx
            · split at h
              · split at h
                · exact absurd h (by simp)
                · split at h
                  · exact absurd h (by simp)
                  · rename_i d2 hlook
                    split at h
                    · exact absurd h (by simp)
                    · simp only [Option.some.injEq] at h
                      subst h
                      exact (Page.layOutPenultimate_below LP idx _
                        (d.log (Event.enter Stage.JustifyVertically idx)) d2 hdraw hLP
                        hlook).chain ((Page.quiet_Process F idx _ d2).below idx)
              · simp only [Option.some.injEq] at h
                subst h
                exact (Page.quiet_Process F idx _ _).below idx
          · simp only [Option.some.injEq] at h
            subst h
            exact (Page.quiet_Process F idx _ _).below idx

theorem Doc.mapRunning_trace (d : Doc) (slot : Option RunningSlot)
    (f : RunningElement → RunningElement) : (d.mapRunning slot f).trace = d.trace := by
  cases slot <;> rfl

theorem Doc.mapRunning_pages (d : Doc) (slot : Option RunningSlot)
    (f : RunningElement → RunningElement) : (d.mapRunning slot f).m_pages = d.m_pages := by
  cases slot <;> rfl

/-- A stage that was entered on page `idx` and then stayed below `idx`: the
shape of its contribution to the trace. -/
theorem Doc.Below.entered {s : Stage} {idx : Nat} {d d1 : Doc}
    (h : Doc.Below idx (d.log (Event.enter s idx)) d1) :
    d.Frame d1 ∧ ∃ evs, d1.trace = d.trace ++ Event.enter s idx :: evs
      ∧ (∀ j, idx < j → stagesOf j (Event.enter s idx :: evs) = [])
      ∧ stagesOf idx (Event.enter s idx :: evs) = [s] := by
  obtain ⟨hf, evs, htr, hst⟩ := h
  refine ⟨hf, evs, ?_, ?_, ?_⟩
  · rw [htr]
    simp [Doc.log]
  · intro j hj
    have hne : ¬ idx = j := Nat.ne_of_lt hj
    simp only [stagesOf, hne, if_false]
    exact hst j (Nat.le_of_lt hj)
  · simp only [stagesOf, if_true]
    rw [hst idx (Nat.le_refl idx)]

theorem Page.LayOutWith_trace (F : Functors) (JV : Doc → Option Doc) (idx : Nat)
    (force : Bool) (d d1 : Doc)
    (hJV : ∀ x x1, JV x = some x1 →
      Doc.Below idx (x.log (Event.enter Stage.JustifyVertically idx)) x1)
    (h : Page.LayOutWith F JV idx force d = some d1) :
    d.Frame d1 ∧ ∃ evs, d1.trace = d.trace ++ evs
      ∧ (∀ j, idx < j → stagesOf j evs = [])
      ∧ (∀ p, d.m_pages[idx]? = some p → (p.m_layoutDone = false ∨ force = true) →
          stagesOf idx evs = [Stage.LayOutHorizontally, Stage.JustifyHorizontally,
            Stage.LayOutVertically, Stage.JustifyVertically]) := by
  unfold Page.LayOutWith at h
  split at h
  · exact absurd h (by simp)
  · rename_i this hthis
    split at h
    · rename_i hdone
      simp only [Option.some.injEq] at h
      subst h
      refine ⟨((Doc.quiet_mapRunning _ _ _).seq (Doc.quiet_mapRunning _ _ _)).1, [], ?_,
        fun _ _ => rfl, ?_⟩
      · simp [Doc.mapRunning_trace]
      · intro p hp hrun
        rw [hthis] at hp
        simp only [Option.some.injEq] at hp
        subst hp
        rcases hrun with h1 | h1
        · rw [hdone.1] at h1
          exact absurd h1 (by simp)
        · rw [hdone.2] at h1
          exact absurd h1 (by simp)
    · split at h
      · exact absurd h (by simp)
      · rename_i a1 h1
        split at h
        · exact absurd h (by simp)
        · rename_i a2 h2
          split at h
          · exact absurd h (by simp)
          · rename_i a3 h3
            split at h
            · exact absurd h (by simp)
            · rename_i a4 h4
              simp only [Option.some.injEq] at h
              obtain ⟨f1, e1, t1, u1, v1⟩ :=
                ((Page.LayOutHorizontally_quiet F idx d a1 h1).below idx).entered
              obtain ⟨f2, e2, t2, u2, v2⟩ :=
                ((Page.JustifyHorizontally_quiet F idx a1 a2 h2).below idx).entered
              obtain ⟨f3, e3, t3, u3, v3⟩ :=
                ((Page.LayOutVertically_quiet F idx a2 a3 h3).below idx).entered
              obtain ⟨f4, e4, t4, u4, v4⟩ := (hJV a3 a4 h4).entered
              have h5 : a4.Quiet d1 := by
                subst h
                refine Doc.Quiet.seq ?_ (Doc.quiet_mapPage _ idx _)
                split
                · exact Page.quiet_Draw F idx _ a4
                · exact Doc.Quiet.stay a4
              obtain ⟨f5, e5, t5, u5⟩ := h5
              refine ⟨(((f1.andThen f2).andThen f3).andThen f4).andThen f5,
                (Event.enter Stage.LayOutHorizontally idx :: e1)
                  ++ (Event.enter Stage.JustifyHorizontally idx :: e2)
                  ++ (Event.enter Stage.LayOutVertically idx :: e3)
                  ++ (Event.enter Stage.JustifyVertically idx :: e4) ++ e5, ?_, ?_, ?_⟩
              · rw [t5, t4, t3, t2, t1]
                simp only [List.append_assoc]
              · intro j hj
                simp only [stagesOf_append, u1 j hj, u2 j hj, u3 j hj, u4 j hj, u5 j,
                  List.append_nil]
              · intro _ _ _
                simp only [stagesOf_append, v1, v2, v3, v4, u5 idx, List.append_nil]
                rfl

theorem Page.LayOut_trace (F : Functors) (idx : Nat) :
    ∀ (force : Bool) (d d1 : Doc), Page.LayOut F idx force d = some d1 →
      d.Frame d1 ∧ ∃ evs, d1.trace = d.trace ++ evs
        ∧ (∀ j, idx < j → stagesOf j evs = [])
        ∧ (∀ p, d.m_pages[idx]? = some p → (p.m_layoutDone = false ∨ force = true) →
            stagesOf idx evs = [Stage.LayOutHorizontally, Stage.JustifyHorizontally,
              Stage.LayOutVertically, Stage.JustifyVertically]) := by
  induction idx with
  | zero =>
    intro force d d1 h
    unfold Page.LayOut at h
    exact Page.LayOutWith_trace F _ 0 force d d1
      (fun x x1 hx => Page.JustifyVerticallyWith_below F _ 0 x x1
        (fun _ _ hn => absurd hn (by simp)) hx) h
  | succ k ih =>
    intro force d d1 h
    unfold Page.LayOut at h
    refine Page.LayOutWith_trace F _ (k + 1) force d d1
      (fun x x1 hx => Page.JustifyVerticallyWith_below F _ (k + 1) x x1 ?_ hx) h
    intro y y1 hy
    obtain ⟨hf, evs, htr, hst, _⟩ := ih false y y1 hy
    exact ⟨hf, evs, htr, fun j hj => hst j hj⟩

theorem Page.LayOut_below (F : Functors) (k : Nat) (x x1 : Doc)
    (h : Page.LayOut F k false x = some x1) : Doc.Below (k + 1) x x1 := by
  obtain ⟨hf, evs, htr, hst, _⟩ := Page.LayOut_trace F k false x x1 h
  exact ⟨hf, evs, htr, fun j hj => hst j hj⟩

theorem Page.JustifyVerticallyWith_isSome (F : Functors) (LP : Doc → Option Doc)
    (idx : Nat) (d : Doc) (hp : idx < d.m_pages.length)
    (hdraw : d.m_drawingPage = some idx)
    (hLP : ∀ x x1, LP x = some x1 → Doc.Below idx x x1)
    (hLPsome : ∀ x, 0 < idx → x.m_pages.length = d.m_pages.length →
      x.m_options = d.m_options → x.m_drawingPage = some (idx - 1) → ∃ x1, LP x = some x1) :
    ∃ d1, Page.JustifyVerticallyWith F LP idx d = some d1 := by
  unfold Page.JustifyVerticallyWith
  rw [List.getElem?_eq_getElem hp]
  simp only [hdraw, ne_eq, not_true_eq_false, if_false]
  split
  · exact ⟨_, rfl⟩
  · split
    · exact ⟨_, rfl⟩
    · split
      · split
        · exact ⟨_, rfl⟩
        · split
          · rename_i hidx
            have hpen : idx - 1 < d.m_pages.length := by omega
            have hget : (d.log (Event.enter Stage.JustifyVertically idx)).m_pages[idx - 1]?
                = some d.m_pages[idx - 1] := List.getElem?_eq_getElem hpen
            rw [hget]
            simp only
            have hlook : ∃ d2, Page.layOutPenultimate LP idx d.m_pages[idx - 1]
                (d.log (Event.enter Stage.JustifyVertically idx)) = some d2 := by
              unfold Page.layOutPenultimate
              split
              · obtain ⟨x1, hx1⟩ := hLPsome
                  ((d.log (Event.enter Stage.JustifyVertically idx)).SetDrawingPage (idx - 1))
                  hidx rfl rfl rfl
                rw [hx1]
                exact ⟨_, rfl⟩
              · exact ⟨_, rfl⟩
            obtain ⟨d2, hd2⟩ := hlook
            rw [hd2]
            simp only
            have hbel := Page.layOutPenultimate_below LP idx _
              (d.log (Event.enter Stage.JustifyVertically idx)) d2 hdraw hLP hd2
            have hlen : idx - 1 < d2.m_pages.length := by
              rw [hbel.1.1]
              exact hpen
            rw [List.getElem?_eq_getElem hlen]
            exact ⟨_, rfl⟩
          · exact ⟨_, rfl⟩
      · exact ⟨_, rfl⟩

theorem Page.LayOutWith_isSome (F : Functors) (JV : Doc → Option Doc) (idx : Nat)
    (force : Bool) (d : Doc) (hp : idx < d.m_pages.length)
    (hdraw : d.m_drawingPage = some idx)
    (hauto : d.m_options.m_adjustPageWidth = false)
    (hJVsome : ∀ x, x.m_pages.length = d.m_pages.length → x.m_options = d.m_options →
      x.m_drawingPage = some idx → ∃ x1, JV x = some x1) :
    ∃ d1, Page.LayOutWith F JV idx force d = some d1 := by
  unfold Page.LayOutWith
  rw [List.getElem?_eq_getElem hp]
  simp only
  split
  · exact ⟨_, rfl⟩
  · obtain ⟨a1, h1⟩ := Page.LayOutHorizontally_isSome F idx d hp hdraw
    have f1 : d.Frame a1 := (Page.LayOutHorizontally_quiet F idx d a1 h1).1
    obtain ⟨a2, h2⟩ := Page.JustifyHorizontally_isSome F idx a1 (by rw [f1.1]; exact hp)
      (by rw [f1.2.2]; exact hdraw) (by rw [f1.2.1]; exact hauto)
    have f2 : d.Frame a2 := f1.andThen (Page.JustifyHorizontally_quiet F idx a1 a2 h2).1
    obtain ⟨a3, h3⟩ := Page.LayOutVertically_isSome F idx a2 (by rw [f2.1]; exact hp)
      (by rw [f2.2.2]; exact hdraw)
    have f3 : d.Frame a3 := f2.andThen (Page.LayOutVertically_quiet F idx a2 a3 h3).1
    obtain ⟨a4, h4⟩ := hJVsome a3 f3.1 f3.2.1 (by rw [f3.2.2]; exact hdraw)
    rw [h1]
    simp only
    rw [h2]
    simp only
    rw [h3]
    simp only
    rw [h4]
    exact ⟨_, rfl⟩

theorem Page.LayOut_isSome (F : Functors) (idx : Nat) :
    ∀ (force : Bool) (d : Doc), idx < d.m_pages.length → d.m_drawingPage = some idx →
      d.m_options.m_adjustPageWidth = false → ∃ d1, Page.LayOut F idx force d = some d1 := by
  induction idx with
  | zero =>
    intro force d hp hdraw hauto
    unfold Page.LayOut
    refine Page.LayOutWith_isSome F _ 0 force d hp hdraw hauto ?_
    intro x hlen _ hx
    exact Page.JustifyVerticallyWith_isSome F _ 0 x (by rw [hlen]; exact hp) hx
      (fun _ _ hn => absurd hn (by simp)) (fun _ h0 => absurd h0 (by simp))
  | succ k ih =>
    intro force d hp hdraw hauto
    unfold Page.LayOut
    refine Page.LayOutWith_isSome F _ (k + 1) force d hp hdraw hauto ?_
    intro x hlen hopt hx
    refine Page.JustifyVerticallyWith_isSome F _ (k + 1) x (by rw [hlen]; exact hp) hx
      (fun y y1 hy => Page.LayOut_below F k y y1 hy) ?_
    intro y _ hylen hyopt hydraw
    exact ih false y (by rw [hylen, hlen]; omega) hydraw (by rw [hyopt, hopt]; exact hauto)

/-! ## Machine arithmetic -/

theorem int32_of_inInt32 (x : Int) (h : InInt32 x) : int32 x = x := by
  unfold InInt32 at h
  unfold int32
  omega

theorem int32_inInt32 (x : Int) : InInt32 (int32 x) := by
  unfold InInt32 int32
  omega

theorem int32_add_left (a b : Int) : int32 (int32 a + b) = int32 (a + b) := by
  unfold int32
  omega

theorem int32_sub_left (a b : Int) : int32 (int32 a - b) = int32 (a - b) := by
  unfold int32
  omega

/-! ## Horizontal justification -/

theorem Page.JustifyHorizontally_run (F : Functors) (idx : Nat) (d : Doc) (p : Page)
    (hp : d.m_pages[idx]? = some p) (hdraw : d.m_drawingPage = some idx)
    (hbreaks : d.m_options.m_breaks ≠ option_BREAKS.BREAKS_none)
    (hjust : d.m_options.m_noJustification = false)
    (hauto : d.m_options.m_adjustPageWidth = false) :
    Page.JustifyHorizontally F idx d
      = some (Page.Process F idx
          (Pass.justifyX
            (int32 (int32 (d.m_drawingPageWidth - d.m_drawingPageMarginLeft)
              - d.m_drawingPageMarginRight)))
          (d.log (Event.enter Stage.JustifyHorizontally idx))) := by
  unfold Page.JustifyHorizontally
  rw [hp]
  simp only [Doc.log, hdraw, hauto, hjust, hbreaks, ne_eq, not_true_eq_false, if_false,
    Bool.false_eq_true, or_self]

/-- C9: with auto page width disabled (and justification enabled, on the
active drawing page), `Page::JustifyHorizontally` runs the JustifyX pass with
the target width `page width - left margin - right margin` and leaves the
page width of the document unchanged, provided the two differences are
representable as `int`; page width 2000 with margins 100 and 100 gives the
target 1800. -/
theorem JustifyHorizontally_target_width (F : Functors) (idx : Nat) (d : Doc) (p : Page)
    (hp : d.m_pages[idx]? = some p) (hdraw : d.m_drawingPage = some idx)
    (hbreaks : d.m_options.m_breaks ≠ option_BREAKS.BREAKS_none)
    (hjust : d.m_options.m_noJustification = false)
    (hauto : d.m_options.m_adjustPageWidth = false)
    (hdiff : InInt32 (d.m_drawingPageWidth - d.m_drawingPageMarginLeft))
    (htarget : InInt32
      (d.m_drawingPageWidth - d.m_drawingPageMarginLeft - d.m_drawingPageMarginRight)) :
    ∃ d1, Page.JustifyHorizontally F idx d = some d1
      ∧ d1 = Page.Process F idx
          (Pass.justifyX
            (d.m_drawingPageWidth - d.m_drawingPageMarginLeft - d.m_drawingPageMarginRight))
          (d.log (Event.enter Stage.JustifyHorizontally idx))
      ∧ d1.trace = d.trace ++ [Event.enter Stage.JustifyHorizontally idx,
          Event.process idx (Pass.justifyX
            (d.m_drawingPageWidth - d.m_drawingPageMarginLeft - d.m_drawingPageMarginRight))]
      ∧ d1.m_drawingPageWidth = d.m_drawingPageWidth
      ∧ (d.m_drawingPageWidth = 2000 → d.m_drawingPageMarginLeft = 100 →
          d.m_drawingPageMarginRight = 100 →
          d1.trace = d.trace ++ [Event.enter Stage.JustifyHorizontally idx,
            Event.process idx (Pass.justifyX 1800)]) := by
  have hrun := Page.JustifyHorizontally_run F idx d p hp hdraw hbreaks hjust hauto
  rw [int32_of_inInt32 _ hdiff, int32_of_inInt32 _ htarget] at hrun
  refine ⟨_, hrun, rfl, ?_, rfl, ?_⟩
  · simp [Page.Process, Doc.log, Doc.mapChildren, Doc.mapPage]
  · intro hw hl hr
    simp [Page.Process, Doc.log, Doc.mapChildren, Doc.mapPage, hw, hl, hr]

/-- Witness for C9: page width 2000, margins 100 and 100, auto width off. -/
theorem JustifyHorizontally_target_width_witness :
    ∃ d1, Page.JustifyHorizontally exampleFunctors 0
        (exampleDoc exampleOptions [examplePage false 0 0 0] 0) = some d1
      ∧ d1.trace = [Event.enter Stage.JustifyHorizontally 0,
          Event.process 0 (Pass.justifyX 1800)]
      ∧ d1.m_drawingPageWidth = 2000 := by
  obtain ⟨d1, hrun, _, _, hw, h1800⟩ := JustifyHorizontally_target_width exampleFunctors 0
    (exampleDoc exampleOptions [examplePage false 0 0 0] 0) (examplePage false 0 0 0)
    rfl rfl (by decide) rfl rfl (by decide) (by decide)
  exact ⟨d1, hrun, h1800 rfl rfl rfl, hw⟩

/-- C10: with auto page width configured and justification enabled,
`Page::JustifyHorizontally` first sets the page width of the document to the
content width plus the left and right page margins, and then runs the
JustifyX pass with a target width equal to that content width, which is the
first system's total width plus its left and right system margins
(`Page::GetContentWidth`), provided these sums are representable as `int`. -/
theorem JustifyHorizontally_auto_width (F : Functors) (idx : Nat) (d : Doc) (p : Page)
    (first : System) (hp : d.m_pages[idx]? = some p) (hdraw : d.m_drawingPage = some idx)
    (hfirst : p.m_children.head? = some first)
    (hbreaks : d.m_options.m_breaks ≠ option_BREAKS.BREAKS_none)
    (hjust : d.m_options.m_noJustification = false)
    (hauto : d.m_options.m_adjustPageWidth = true)
    (hsum : InInt32 (first.m_drawingTotalWidth + first.m_systemLeftMar))
    (hcontent : InInt32
      (first.m_drawingTotalWidth + first.m_systemLeftMar + first.m_systemRightMar))
    (hleft : InInt32
      (first.m_drawingTotalWidth + first.m_systemLeftMar + first.m_systemRightMar
        + d.m_drawingPageMarginLeft))
    (hwidth : InInt32
      (first.m_drawingTotalWidth + first.m_systemLeftMar + first.m_systemRightMar
        + d.m_drawingPageMarginLeft + d.m_drawingPageMarginRight)) :
    Page.GetContentWidth d idx
        = some (first.m_drawingTotalWidth + first.m_systemLeftMar + first.m_systemRightMar)
      ∧ ∃ d1, Page.JustifyHorizontally F idx d = some d1
        ∧ d1.m_drawingPageWidth
            = (first.m_drawingTotalWidth + first.m_systemLeftMar + first.m_systemRightMar)
              + d.m_drawingPageMarginLeft + d.m_drawingPageMarginRight
        ∧ d1.trace = d.trace ++ [Event.enter Stage.JustifyHorizontally idx,
            Event.process idx (Pass.justifyX
              (first.m_drawingTotalWidth + first.m_systemLeftMar + first.m_systemRightMar))]
        ∧ d1.children idx
            = F.visit (Pass.justifyX
                (first.m_drawingTotalWidth + first.m_systemLeftMar + first.m_systemRightMar))
              p.m_children := by
  have hcw : Page.GetContentWidth d idx
      = some (first.m_drawingTotalWidth + first.m_systemLeftMar + first.m_systemRightMar) := by
    unfold Page.GetContentWidth
    rw [hp]
    simp only [hdraw, ne_eq, not_true_eq_false, if_false, hfirst]
    rw [int32_of_inInt32 _ hsum, int32_of_inInt32 _ hcontent]
  have hcw1 : Page.GetContentWidth (d.log (Event.enter Stage.JustifyHorizontally idx)) idx
      = some (first.m_drawingTotalWidth + first.m_systemLeftMar + first.m_systemRightMar) :=
    hcw
  have htarget : int32 (int32
      (first.m_drawingTotalWidth + first.m_systemLeftMar + first.m_systemRightMar
        + d.m_drawingPageMarginLeft + d.m_drawingPageMarginRight - d.m_drawingPageMarginLeft)
      - d.m_drawingPageMarginRight)
      = first.m_drawingTotalWidth + first.m_systemLeftMar + first.m_systemRightMar := by
    rw [int32_sub_left]
    have hsame : first.m_drawingTotalWidth + first.m_systemLeftMar + first.m_systemRightMar
        + d.m_drawingPageMarginLeft + d.m_drawingPageMarginRight - d.m_drawingPageMarginLeft
        - d.m_drawingPageMarginRight
        = first.m_drawingTotalWidth + first.m_systemLeftMar + first.m_systemRightMar := by
      omega
    rw [hsame]
    exact int32_of_inInt32 _ hcontent
  refine ⟨hcw, ?_⟩
  unfold Page.JustifyHorizontally
  rw [hp]
  simp only [hcw1]
  simp only [Doc.log, hdraw, hauto, hjust, hbreaks, ne_eq, not_true_eq_false, if_false,
    if_true, Bool.false_eq_true, or_self, int32_of_inInt32 _ hleft,
    int32_of_inInt32 _ hwidth, htarget]
  refine ⟨_, rfl, ?_, ?_, ?_⟩
  · simp [Page.Process, Doc.log, Doc.mapChildren, Doc.mapPage]
  · simp [Page.Process, Doc.log, Doc.mapChildren, Doc.mapPage]
  · simp [Page.Process, Doc.log, Doc.mapChildren, Doc.mapPage, Doc.children,
      List.getElem?_modify, hp]

/-- Witness for C10: one system of total width 1200 and system margins 200
and 100, page margins 100 and 100: the page width goes from 2000 to 1700 and
the target width is the content width 1500. -/
theorem JustifyHorizontally_auto_width_witness :
    ∃ d1, Page.JustifyHorizontally exampleFunctors 0
        (exampleDoc { exampleOptions with m_adjustPageWidth := true }
          [exampleNarrowPage] 0) = some d1
      ∧ d1.m_drawingPageWidth = 1700
      ∧ d1.trace = [Event.enter Stage.JustifyHorizontally 0,
          Event.process 0 (Pass.justifyX 1500)] := by
  obtain ⟨_, d1, hrun, hw, htr, _⟩ := JustifyHorizontally_auto_width exampleFunctors 0
    (exampleDoc { exampleOptions with m_adjustPageWidth := true } [exampleNarrowPage] 0)
    exampleNarrowPage { exampleSystem with m_drawingTotalWidth := 1200 }
    rfl rfl rfl (by decide) rfl rfl (by decide) (by decide) (by decide) (by decide)
  exact ⟨d1, hrun, hw, htr⟩

/-! ## Vertical justification -/

theorem Page.JustifyVertically_eq_with (F : Functors) (idx : Nat) (d : Doc) :
    ∃ LP : Doc → Option Doc,
      Page.JustifyVertically F idx d = Page.JustifyVerticallyWith F LP idx d
        ∧ ∀ b, Page.JustifyVertically F idx (d.withJustifyIncludeLastPage b)
          = Page.JustifyVerticallyWith F LP idx (d.withJustifyIncludeLastPage b) := by
  cases idx with
  | zero => exact ⟨_, rfl, fun _ => rfl⟩
  | succ k => exact ⟨_, rfl, fun _ => rfl⟩

theorem Page.JustifyVerticallyWith_early (F : Functors) (LP : Doc → Option Doc)
    (idx : Nat) (d : Doc) (this : Page) (hthis : d.m_pages[idx]? = some this)
    (hdraw : d.m_drawingPage = some idx)
    (h : this.m_drawingJustifiableHeight < 0 ∨ d.m_options.m_justifyVertically = false
      ∨ (idx + 1 = d.m_pages.length ∧ d.m_options.m_justifyIncludeLastPage = false)) :
    Page.JustifyVerticallyWith F LP idx d
      = some (d.log (Event.enter Stage.JustifyVertically idx)) := by
  unfold Page.JustifyVerticallyWith
  rw [hthis]
  simp only [hdraw, ne_eq, not_true_eq_false, if_false]
  split
  · rfl
  · split
    · rfl
    · rename_i hH hjv
      rcases h with h | h | ⟨hl, hi⟩
      · exact absurd h hH
      · exact absurd h hjv
      · have hl1 : idx + 1
            = (d.log (Event.enter Stage.JustifyVertically idx)).m_pages.length := hl
        have hi1 : (d.log (Event.enter Stage.JustifyVertically idx)).m_options.m_justifyIncludeLastPage
            = false := hi
        rw [if_pos hl1, if_pos hi1]

theorem Page.JustifyVerticallyWith_notLast (F : Functors) (LP : Doc → Option Doc)
    (idx : Nat) (d : Doc) (b : Bool) (hnl : idx + 1 ≠ d.m_pages.length) :
    Page.JustifyVerticallyWith F LP idx (d.withJustifyIncludeLastPage b)
      = (Page.JustifyVerticallyWith F LP idx d).map
          fun x => x.withJustifyIncludeLastPage b := by
  have hnl1 : ¬ idx + 1 = (d.withJustifyIncludeLastPage b).m_pages.length := hnl
  have hpages : (d.withJustifyIncludeLastPage b).m_pages = d.m_pages := rfl
  have hdr : (d.withJustifyIncludeLastPage b).m_drawingPage = d.m_drawingPage := rfl
  unfold Page.JustifyVerticallyWith
  rw [hpages, hdr]
  cases d.m_pages[idx]? with
  | none => rfl
  | some this =>
    simp only
    split
    · rfl
    · split
      · rfl
      · have hlen : ¬ idx + 1 = ((d.withJustifyIncludeLastPage b).log
            (Event.enter Stage.JustifyVertically idx)).m_pages.length := hnl
        have hlen1 : ¬ idx + 1
            = (d.log (Event.enter Stage.JustifyVertically idx)).m_pages.length := hnl
        rw [if_neg hlen, if_neg hlen1]
        have hjv : ((d.withJustifyIncludeLastPage b).log
            (Event.enter Stage.JustifyVertically idx)).m_options.m_justifyVertically
              = (d.log (Event.enter Stage.JustifyVertically idx)).m_options.m_justifyVertically :=
          rfl
        rw [hjv]
        by_cases hc : (d.log
            (Event.enter Stage.JustifyVertically idx)).m_options.m_justifyVertically = false
        · rw [if_pos hc, if_pos hc]
          rfl
        · rw [if_neg hc, if_neg hc]
          rfl

/-- C5: on the last page of the document with the justify-include-last-page
option off, `Page::JustifyVertically` returns without running the JustifyY
pass and without changing anything (only the stage entry is recorded),
whatever the justifiable height and step size; on a page that is not the last
the option has no influence on the run. -/
theorem JustifyVertically_lastPage_excluded (F : Functors) (idx : Nat) (d : Doc)
    (this : Page) (hthis : d.m_pages[idx]? = some this)
    (hdraw : d.m_drawingPage = some idx) :
    (idx + 1 = d.m_pages.length → d.m_options.m_justifyIncludeLastPage = false →
        Page.JustifyVertically F idx d
          = some (d.log (Event.enter Stage.JustifyVertically idx)))
      ∧ (idx + 1 ≠ d.m_pages.length → ∀ b : Bool,
        Page.JustifyVertically F idx (d.withJustifyIncludeLastPage b)
          = (Page.JustifyVertically F idx d).map
              fun x => x.withJustifyIncludeLastPage b) := by
  obtain ⟨LP, hLP, hLPb⟩ := Page.JustifyVertically_eq_with F idx d
  constructor
  · intro hlast hinc
    rw [hLP]
    exact Page.JustifyVerticallyWith_early F LP idx d this hthis hdraw
      (Or.inr (Or.inr ⟨hlast, hinc⟩))
  · intro hnl b
    rw [hLPb b, hLP]
    exact Page.JustifyVerticallyWith_notLast F LP idx d b hnl

/-- Witness for C5: the last of two pages with the option off, and the first
of two pages with the option switched. -/
theorem JustifyVertically_lastPage_excluded_witness :
    Page.JustifyVertically exampleFunctors 1
        (exampleTwoPages { exampleOptions with m_justifyIncludeLastPage := false } 1)
      = some ((exampleTwoPages { exampleOptions with m_justifyIncludeLastPage := false } 1).log
          (Event.enter Stage.JustifyVertically 1))
    ∧ Page.JustifyVertically exampleFunctors 0
        ((exampleTwoPages exampleOptions 0).withJustifyIncludeLastPage false)
      = (Page.JustifyVertically exampleFunctors 0 (exampleTwoPages exampleOptions 0)).map
          fun x => x.withJustifyIncludeLastPage false :=
  ⟨(JustifyVertically_lastPage_excluded exampleFunctors 1
      (exampleTwoPages { exampleOptions with m_justifyIncludeLastPage := false } 1)
      (examplePage false 500 3 4) rfl rfl).1 rfl rfl,
   (JustifyVertically_lastPage_excluded exampleFunctors 0 (exampleTwoPages exampleOptions 0)
      (examplePage false 0 0 0) rfl rfl).2 (by decide) false⟩

/-- C6 as stated fails: on a page that is not the last, with justifiable
height 0 (which is non-positive), 3 justifiable systems and vertical
justification enabled, `Page::JustifyVertically` runs the JustifyY pass, with
step size 0 / 2 = 0. -/
theorem JustifyVertically_runs_at_height_zero :
    (examplePage false 0 3 4).m_drawingJustifiableHeight ≤ 0
      ∧ Page.JustifyVertically exampleFunctors 0
          (exampleDoc exampleOptions [examplePage false 0 3 4, examplePage false 500 3 4] 0)
        = some (Page.Process exampleFunctors 0 (Pass.justifyY 0)
            ((exampleDoc exampleOptions
              [examplePage false 0 3 4, examplePage false 500 3 4] 0).log
              (Event.enter Stage.JustifyVertically 0)))
      ∧ (Page.JustifyVertically exampleFunctors 0
          (exampleDoc exampleOptions
            [examplePage false 0 3 4, examplePage false 500 3 4] 0)).map
          (fun x => x.trace)
        = some [Event.enter Stage.JustifyVertically 0, Event.process 0 (Pass.justifyY 0)] := by
  decide

/-- C6 as amended: `Page::JustifyVertically` is a no-op (the JustifyY pass is
not run, nothing changes but the recorded stage entry) whenever the page's
justifiable height is negative or the justify-vertically option is disabled. -/
theorem JustifyVertically_noop (F : Functors) (idx : Nat) (d : Doc) (this : Page)
    (hthis : d.m_pages[idx]? = some this) (hdraw : d.m_drawingPage = some idx)
    (h : this.m_drawingJustifiableHeight < 0 ∨ d.m_options.m_justifyVertically = false) :
    Page.JustifyVertically F idx d
      = some (d.log (Event.enter Stage.JustifyVertically idx)) := by
  obtain ⟨LP, hLP, _⟩ := Page.JustifyVertically_eq_with F idx d
  rw [hLP]
  refine Page.JustifyVerticallyWith_early F LP idx d this hthis hdraw ?_
  rcases h with h | h
  · exact Or.inl h
  · exact Or.inr (Or.inl h)

/-- Witness for C6 as amended: a page of justifiable height -20. -/
theorem JustifyVertically_noop_witness :
    Page.JustifyVertically exampleFunctors 0
        (exampleDoc exampleOptions [examplePage false (-20) 3 4, examplePage false 0 0 0] 0)
      = some ((exampleDoc exampleOptions
          [examplePage false (-20) 3 4, examplePage false 0 0 0] 0).log
          (Event.enter Stage.JustifyVertically 0)) :=
  JustifyVertically_noop exampleFunctors 0
    (exampleDoc exampleOptions [examplePage false (-20) 3 4, examplePage false 0 0 0] 0)
    (examplePage false (-20) 3 4) rfl rfl (Or.inl (by decide))

/-- C4: on the last page, with vertical justification and the inclusion of
the last page enabled and a penultimate page present, the step size that
`Page::JustifyVertically` hands to the JustifyY pass is the smaller of the
last page's own `CalcJustificationStepSize` and that of the penultimate page
(read after the lookback has laid it out if it was not); when the penultimate
page's step size is the smaller one, it is the one used. With a negative
justifiable height nothing is handed to the pass. The lookback does return
when auto page width is off. -/
theorem JustifyVertically_lastPage_stepSize (F : Functors) (k : Nat) (d : Doc)
    (this penultimatePage : Page)
    (hthis : d.m_pages[k + 1]? = some this) (hlast : k + 1 + 1 = d.m_pages.length)
    (hdraw : d.m_drawingPage = some (k + 1))
    (hjv : d.m_options.m_justifyVertically = true)
    (hinc : d.m_options.m_justifyIncludeLastPage = true)
    (hpen : d.m_pages[k]? = some penultimatePage) :
    (∀ d1, Page.lookedBack F k penultimatePage d = some d1 →
        0 ≤ this.m_drawingJustifiableHeight →
        ∃ penultimatePage1, d1.m_pages[k]? = some penultimatePage1
          ∧ Page.JustifyVertically F (k + 1) d
            = some (Page.Process F (k + 1)
                (Pass.justifyY
                  (min (this.CalcJustificationStepSize d.m_options.m_justifySystemsOnly)
                    (penultimatePage1.CalcJustificationStepSize
                      d.m_options.m_justifySystemsOnly))) d1)
          ∧ (penultimatePage1.CalcJustificationStepSize d.m_options.m_justifySystemsOnly
              < this.CalcJustificationStepSize d.m_options.m_justifySystemsOnly →
            Page.JustifyVertically F (k + 1) d
              = some (Page.Process F (k + 1)
                  (Pass.justifyY
                    (penultimatePage1.CalcJustificationStepSize
                      d.m_options.m_justifySystemsOnly)) d1)))
      ∧ (this.m_drawingJustifiableHeight < 0 →
          Page.JustifyVertically F (k + 1) d
            = some (d.log (Event.enter Stage.JustifyVertically (k + 1))))
      ∧ (d.m_options.m_adjustPageWidth = false →
          ∃ d1, Page.lookedBack F k penultimatePage d = some d1) := by
  refine ⟨?_, ?_, ?_⟩
  · intro d1 hlook hH
    have hbel : Doc.Below (k + 1) (d.log (Event.enter Stage.JustifyVertically (k + 1))) d1 :=
      Page.layOutPenultimate_below _ (k + 1) penultimatePage _ d1 hdraw
        (fun y y1 hy => Page.LayOut_below F k y y1 hy) hlook
    have hk : k < d1.m_pages.length := by
      rw [hbel.1.1]
      show k < d.m_pages.length
      omega
    have hrun : ∀ s : Int,
        s = (if (d1.m_pages[k]).CalcJustificationStepSize d.m_options.m_justifySystemsOnly
              < this.CalcJustificationStepSize d.m_options.m_justifySystemsOnly
            then (d1.m_pages[k]).CalcJustificationStepSize d.m_options.m_justifySystemsOnly
            else this.CalcJustificationStepSize d.m_options.m_justifySystemsOnly) →
        Page.JustifyVertically F (k + 1) d
          = some (Page.Process F (k + 1) (Pass.justifyY s) d1) := by
      intro s hs
      have hlook1 : Page.layOutPenultimate (fun x => Page.LayOut F k false x) (k + 1)
          penultimatePage (d.log (Event.enter Stage.JustifyVertically (k + 1))) = some d1 :=
        hlook
      have hpen1 : (d.log (Event.enter Stage.JustifyVertically (k + 1))).m_pages[k]?
          = some penultimatePage := hpen
      have hlast1 : k + 1 + 1
          = (d.log (Event.enter Stage.JustifyVertically (k + 1))).m_pages.length := hlast
      have hjv1 : ¬ (d.log
          (Event.enter Stage.JustifyVertically (k + 1))).m_options.m_justifyVertically
            = false := by
        show ¬ d.m_options.m_justifyVertically = false
        rw [hjv]
        simp
      have hinc1 : ¬ (d.log
          (Event.enter Stage.JustifyVertically (k + 1))).m_options.m_justifyIncludeLastPage
            = false := by
        show ¬ d.m_options.m_justifyIncludeLastPage = false
        rw [hinc]
        simp
      show Page.JustifyVerticallyWith F (fun x => Page.LayOut F k false x) (k + 1) d = _
      unfold Page.JustifyVerticallyWith
      rw [hthis]
      simp only [hdraw, ne_eq, not_true_eq_false, if_false]
      rw [if_neg (not_lt.mpr hH), if_neg hjv1, if_pos hlast1, if_neg hinc1,
        if_pos (Nat.succ_pos k)]
      simp only [Nat.add_sub_cancel]
      rw [hpen1]
      simp only
      rw [hlook1]
      simp only
      rw [List.getElem?_eq_getElem hk]
      simp only
      rw [hs]
      rfl
    refine ⟨d1.m_pages[k], List.getElem?_eq_getElem hk, ?_, ?_⟩
    · refine hrun _ ?_
      rw [min_def]
      split <;> split <;> omega
    · intro hlt
      refine hrun _ ?_
      rw [if_pos hlt]
  · intro hneg
    obtain ⟨LP, hLP, _⟩ := Page.JustifyVertically_eq_with F (k + 1) d
    rw [hLP]
    exact Page.JustifyVerticallyWith_early F LP (k + 1) d this hthis hdraw (Or.inl hneg)
  · intro hauto
    unfold Page.lookedBack Page.layOutPenultimate
    split
    · obtain ⟨x1, hx1⟩ := Page.LayOut_isSome F k false
        ((d.log (Event.enter Stage.JustifyVertically (k + 1))).SetDrawingPage (k + 1 - 1))
        (by show k < d.m_pages.length; omega) rfl hauto
      simp only [hx1]
      exact ⟨_, rfl⟩
    · exact ⟨_, rfl⟩

/-- Witness for C4: the last of two pages has step size 500 / 2 = 250; the
lookback lays out the penultimate page, whose step size is then
300 / 2 = 150, and 150 is handed to the JustifyY pass. -/
theorem JustifyVertically_lastPage_stepSize_witness :
    Page.lookedBack exampleFunctors 0 (examplePage false 0 0 0)
        (exampleTwoPages exampleOptions 1) = some exampleLookedBack
      ∧ exampleLookedBack.m_pages[0]? = some (examplePage true 300 3 4)
      ∧ (examplePage false 500 3 4).CalcJustificationStepSize true = 250
      ∧ (examplePage true 300 3 4).CalcJustificationStepSize true = 150
      ∧ Page.JustifyVertically exampleFunctors 1 (exampleTwoPages exampleOptions 1)
        = some (Page.Process exampleFunctors 1 (Pass.justifyY 150) exampleLookedBack) := by
  have hlook : Page.lookedBack exampleFunctors 0 (examplePage false 0 0 0)
      (exampleTwoPages exampleOptions 1) = some exampleLookedBack := by decide
  have hpen : exampleLookedBack.m_pages[0]? = some (examplePage true 300 3 4) := by decide
  obtain ⟨pen1, hp1, hrun, _⟩ := (JustifyVertically_lastPage_stepSize exampleFunctors 0
    (exampleTwoPages exampleOptions 1) (examplePage false 500 3 4)
    (examplePage false 0 0 0) rfl rfl rfl rfl rfl rfl).1 exampleLookedBack hlook (by decide)
  rw [hpen] at hp1
  cases hp1
  exact ⟨hlook, hpen, by decide, by decide, hrun⟩

/-! ## `Page::LayOut` -/

theorem Page.LayOut_eq_with (F : Functors) (idx : Nat) (force : Bool) :
    ∃ JV : Doc → Option Doc, ∀ x, Page.LayOut F idx force x = Page.LayOutWith F JV idx force x := by
  cases idx with
  | zero => exact ⟨_, fun x => by rw [Page.LayOut]⟩
  | succ k => exact ⟨_, fun x => by rw [Page.LayOut]⟩

theorem Page.GetHeader_cases (d : Doc) (idx : Nat) :
    Page.GetHeader (some d) idx = none ∨ Page.GetHeader (some d) idx = some RunningSlot.pgHead
      ∨ Page.GetHeader (some d) idx = some RunningSlot.pgHead2 := by
  unfold Page.GetHeader
  simp only
  split
  · exact Or.inl rfl
  · split
    · split
      · exact Or.inr (Or.inl rfl)
      · exact Or.inl rfl
    · split
      · exact Or.inr (Or.inr rfl)
      · exact Or.inl rfl

theorem Page.GetFooter_cases (d : Doc) (idx : Nat) :
    Page.GetFooter (some d) idx = none ∨ Page.GetFooter (some d) idx = some RunningSlot.pgFoot
      ∨ Page.GetFooter (some d) idx = some RunningSlot.pgFoot2 := by
  unfold Page.GetFooter
  simp only
  split
  · exact Or.inl rfl
  · split
    · split
      · exact Or.inr (Or.inl rfl)
      · exact Or.inl rfl
    · split
      · exact Or.inr (Or.inr rfl)
      · exact Or.inl rfl

theorem Page.GetHeader_mapRunning (d : Doc) (idx : Nat) (slot : Option RunningSlot)
    (f : RunningElement → RunningElement) :
    Page.GetHeader (some (d.mapRunning slot f)) idx = Page.GetHeader (some d) idx := by
  cases slot with
  | none => rfl
  | some s => cases s <;> simp [Page.GetHeader, Doc.mapRunning, ScoreDef.map]

theorem Page.GetFooter_mapRunning (d : Doc) (idx : Nat) (slot : Option RunningSlot)
    (f : RunningElement → RunningElement) :
    Page.GetFooter (some (d.mapRunning slot f)) idx = Page.GetFooter (some d) idx := by
  cases slot with
  | none => rfl
  | some s => cases s <;> simp [Page.GetFooter, Doc.mapRunning, ScoreDef.map]

theorem Page.LayOutWith_done (F : Functors) (JV : Doc → Option Doc) (idx : Nat) (d : Doc)
    (p : Page) (hp : d.m_pages[idx]? = some p) (hdone : p.m_layoutDone = true) :
    Page.LayOutWith F JV idx false d
      = some ((d.mapRunning (Page.GetHeader (some d) idx) fun r =>
            { r with m_drawingPage := some idx }).mapRunning
          (Page.GetFooter (some d) idx) fun r => { r with m_drawingPage := some idx }) := by
  unfold Page.LayOutWith
  rw [hp]
  simp only [hdone, and_self, if_true, Page.GetFooter_mapRunning]

/-- C8: on a page whose `layoutDone` flag is set, `Page::LayOut(false)` returns
without entering any of the four stages and without running any pass or probe
(the trace is unchanged); the pages, with every position, the justification
metadata and `layoutDone`, are unchanged, and so is everything else except
that the header and the footer of the page, when present, are attached to this
page; invoking it again, any number of times, yields the same state. -/
theorem LayOut_done_short_circuit (F : Functors) (idx : Nat) (d : Doc) (p : Page)
    (hp : d.m_pages[idx]? = some p) (hdone : p.m_layoutDone = true) :
    ∃ d1, Page.LayOut F idx false d = some d1
      ∧ d1.trace = d.trace
      ∧ d1.m_pages = d.m_pages
      ∧ d1 = { d with m_scoreDef := d1.m_scoreDef }
      ∧ (∀ slot, d1.m_scoreDef.get slot
          = if some slot = Page.GetHeader (some d) idx ∨ some slot = Page.GetFooter (some d) idx
            then (d.m_scoreDef.get slot).map fun r => { r with m_drawingPage := some idx }
            else d.m_scoreDef.get slot)
      ∧ Page.LayOut F idx false d1 = some d1
      ∧ ∀ n, Page.LayOutTimes F idx (n + 1) d = some d1 := by
  obtain ⟨JV, hJV⟩ := Page.LayOut_eq_with F idx false
  have hrun := Page.LayOutWith_done F JV idx d p hp hdone
  have hagain : ∀ x : Doc, x.m_pages[idx]? = some p →
      Page.LayOut F idx false x
        = some ((x.mapRunning (Page.GetHeader (some x) idx) fun r =>
              { r with m_drawingPage := some idx }).mapRunning
            (Page.GetFooter (some x) idx) fun r => { r with m_drawingPage := some idx }) := by
    intro x hx
    rw [hJV x]
    exact Page.LayOutWith_done F JV idx x p hx hdone
  have hidem : Page.LayOut F idx false
      ((d.mapRunning (Page.GetHeader (some d) idx) fun r =>
            { r with m_drawingPage := some idx }).mapRunning
          (Page.GetFooter (some d) idx) fun r => { r with m_drawingPage := some idx })
      = some ((d.mapRunning (Page.GetHeader (some d) idx) fun r =>
            { r with m_drawingPage := some idx }).mapRunning
          (Page.GetFooter (some d) idx) fun r => { r with m_drawingPage := some idx }) := by
    rw [hagain _ (by rw [Doc.mapRunning_pages, Doc.mapRunning_pages]; exact hp)]
    simp only [Page.GetHeader_mapRunning, Page.GetFooter_mapRunning]
    rcases Page.GetHeader_cases d idx with hh | hh | hh <;>
      rcases Page.GetFooter_cases d idx with hf | hf | hf <;>
        simp [hh, hf, Doc.mapRunning, ScoreDef.map, Option.map_map, Function.comp_def]
  refine ⟨_, (hJV d).trans hrun, ?_, ?_, ?_, ?_, hidem, ?_⟩
  · rw [Doc.mapRunning_trace, Doc.mapRunning_trace]
  · rw [Doc.mapRunning_pages, Doc.mapRunning_pages]
  · rcases Page.GetHeader_cases d idx with hh | hh | hh <;>
      rcases Page.GetFooter_cases d idx with hf | hf | hf <;>
        simp [hh, hf, Doc.mapRunning]
  · intro slot
    rcases Page.GetHeader_cases d idx with hh | hh | hh <;>
      rcases Page.GetFooter_cases d idx with hf | hf | hf <;>
        cases slot <;> simp [hh, hf, Doc.mapRunning, ScoreDef.map, ScoreDef.get]
  · intro n
    induction n with
    | zero =>
      unfold Page.LayOutTimes
      rw [(hJV d).trans hrun]
      rfl
    | succ m ih =>
      unfold Page.LayOutTimes
      rw [(hJV d).trans hrun]
      simp only
      unfold Page.LayOutTimes
      rw [hidem]
      simp only
      unfold Page.LayOutTimes at ih
      rw [(hJV d).trans hrun] at ih
      exact ih

/-- Witness for C8: a laid-out page with a header and a footer; the run
attaches both to page 0 and changes nothing else, and a second run changes
nothing at all. -/
theorem LayOut_done_short_circuit_witness :
    ∃ d1, Page.LayOut exampleFunctors 0 false exampleDonePage = some d1
      ∧ d1.trace = [] ∧ d1.m_pages = [examplePage true 300 3 4]
      ∧ d1.m_scoreDef.pgHead.map (fun r => r.m_drawingPage) = some (some 0)
      ∧ d1.m_scoreDef.pgFoot.map (fun r => r.m_drawingPage) = some (some 0)
      ∧ Page.LayOut exampleFunctors 0 false d1 = some d1 := by
  obtain ⟨d1, hrun, htr, hpg, _, hslot, hidem, _⟩ := LayOut_done_short_circuit
    exampleFunctors 0 exampleDonePage (examplePage true 300 3 4) rfl rfl
  refine ⟨d1, hrun, htr, hpg, ?_, ?_, hidem⟩
  · have h := hslot RunningSlot.pgHead
    simp only [ScoreDef.get] at h
    rw [h]
    decide
  · have h := hslot RunningSlot.pgFoot
    simp only [ScoreDef.get] at h
    rw [h]
    decide

/-- C7 as stated fails: in a run of `Page::LayOut` that performs layout, the
horizontal justification stage is entered before the vertical layout stage,
not after both layout stages. -/
theorem LayOut_justifies_horizontally_before_vertical_layout :
    (Page.LayOut exampleFunctors 0 false (exampleTwoPages exampleOptions 0)).map
        (fun x => stagesOf 0 x.trace)
      = some [Stage.LayOutHorizontally, Stage.JustifyHorizontally,
          Stage.LayOutVertically, Stage.JustifyVertically]
    ∧ (Page.LayOut exampleFunctors 0 false (exampleTwoPages exampleOptions 0)).map
        (fun x => stagesOf 0 x.trace)
      ≠ some [Stage.LayOutHorizontally, Stage.LayOutVertically,
          Stage.JustifyHorizontally, Stage.JustifyVertically] := by
  decide

/-- C7 as amended: whenever `Page::LayOut` performs layout on a page
(`layoutDone` is false or `force` is true), the stages are entered on that
page in the order horizontal layout, horizontal justification, vertical
layout, vertical justification; and the run does return when the page is the
active drawing page and auto page width is off. -/
theorem LayOut_stage_order (F : Functors) (idx : Nat) (force : Bool) (d : Doc) (p : Page)
    (hp : d.m_pages[idx]? = some p) (hrun : p.m_layoutDone = false ∨ force = true) :
    (∀ d1, Page.LayOut F idx force d = some d1 →
        ∃ evs, d1.trace = d.trace ++ evs
          ∧ stagesOf idx evs = [Stage.LayOutHorizontally, Stage.JustifyHorizontally,
              Stage.LayOutVertically, Stage.JustifyVertically])
      ∧ (d.m_drawingPage = some idx → d.m_options.m_adjustPageWidth = false →
          ∃ d1, Page.LayOut F idx force d = some d1) := by
  constructor
  · intro d1 h
    obtain ⟨_, evs, htr, _, hst⟩ := Page.LayOut_trace F idx force d d1 h
    exact ⟨evs, htr, hst p hp hrun⟩
  · intro hdraw hauto
    have hlt : idx < d.m_pages.length := by
      by_contra hge
      rw [List.getElem?_eq_none (Nat.le_of_not_lt hge)] at hp
      exact absurd hp (by simp)
    exact Page.LayOut_isSome F idx force d hlt hdraw hauto

/-- Witness for C7 as amended: the first of two pages, not laid out. -/
theorem LayOut_stage_order_witness :
    ∃ d1 evs, Page.LayOut exampleFunctors 0 false (exampleTwoPages exampleOptions 0) = some d1
      ∧ d1.trace = evs
      ∧ stagesOf 0 evs = [Stage.LayOutHorizontally, Stage.JustifyHorizontally,
          Stage.LayOutVertically, Stage.JustifyVertically] := by
  have h := LayOut_stage_order exampleFunctors 0 false (exampleTwoPages exampleOptions 0)
    (examplePage false 0 0 0) rfl (Or.inl rfl)
  obtain ⟨d1, hd1⟩ := h.2 rfl rfl
  obtain ⟨evs, htr, hst⟩ := h.1 d1 hd1
  exact ⟨d1, evs, hd1, by rw [htr]; rfl, hst⟩

/-! ## Bounds on the step size -/

theorem Page.CalcJustificationStepSize_eq_ediv (p : Page) (systemsOnly : Bool)
    (hH : 0 ≤ p.m_drawingJustifiableHeight) (hn : 2 ≤ p.unitCount systemsOnly) :
    p.CalcJustificationStepSize systemsOnly
      = p.m_drawingJustifiableHeight / (p.unitCount systemsOnly - 1) := by
  have hcount : (if systemsOnly = true then p.m_drawingJustifiableSystems - 1
      else p.m_drawingJustifiableStaves - 1) = p.unitCount systemsOnly - 1 := by
    unfold Page.unitCount
    split <;> rfl
  have hpos : 0 < p.unitCount systemsOnly - 1 := by omega
  unfold Page.CalcJustificationStepSize
  rw [if_neg (not_lt.mpr hH)]
  simp only [hcount]
  rw [if_neg (ne_of_gt hpos)]
  exact Int.tdiv_eq_ediv hH (le_of_lt hpos)

/-- C16: for a justifiable height `H ≥ 0` and a selected unit count `n ≥ 2`,
the step size `s` returned by `Page::CalcJustificationStepSize` satisfies
`s * (n - 1) ≤ H < (s + 1) * (n - 1)`: the step applied to all `n - 1` gaps
never uses more than the justifiable height, and no larger integer step has
that property. -/
theorem CalcJustificationStepSize_bounds (p : Page) (systemsOnly : Bool)
    (hH : 0 ≤ p.m_drawingJustifiableHeight) (hn : 2 ≤ p.unitCount systemsOnly) :
    p.CalcJustificationStepSize systemsOnly * (p.unitCount systemsOnly - 1)
        ≤ p.m_drawingJustifiableHeight
      ∧ p.m_drawingJustifiableHeight
        < (p.CalcJustificationStepSize systemsOnly + 1) * (p.unitCount systemsOnly - 1)
      ∧ ∀ t : Int, t * (p.unitCount systemsOnly - 1) ≤ p.m_drawingJustifiableHeight →
          t ≤ p.CalcJustificationStepSize systemsOnly := by
  have hpos : 0 < p.unitCount systemsOnly - 1 := by omega
  rw [Page.CalcJustificationStepSize_eq_ediv p systemsOnly hH hn]
  refine ⟨Int.ediv_mul_le _ (ne_of_gt hpos), Int.lt_ediv_add_one_mul_self _ hpos, ?_⟩
  intro t ht
  exact Int.le_ediv_of_mul_le hpos ht

/-- Witness for C16: height 301 over 3 justifiable systems gives the step 150,
with 150 * 2 ≤ 301 < 151 * 2. -/
theorem CalcJustificationStepSize_bounds_witness :
    (examplePage false 301 3 4).CalcJustificationStepSize true = 150
      ∧ (examplePage false 301 3 4).CalcJustificationStepSize true * (3 - 1) ≤ 301
      ∧ (301 : Int) < ((examplePage false 301 3 4).CalcJustificationStepSize true + 1) * (3 - 1) :=
  have h := CalcJustificationStepSize_bounds (examplePage false 301 3 4) true
    (by decide) (by decide)
  ⟨by decide, h.1, h.2.1⟩

/-! ## Horizontal justification disabled -/

/-- C11: when the no-justification option is set or the break mode is
`BREAKS_none`, `Page::JustifyHorizontally` returns without running the JustifyX
pass and without writing the page width of the document (only the stage entry
is recorded), also when auto page width is configured and also when the page
is not the active drawing page: the assertion on the active page comes after
this return. -/
theorem JustifyHorizontally_disabled (F : Functors) (idx : Nat) (d : Doc) (p : Page)
    (hp : d.m_pages[idx]? = some p)
    (hoff : d.m_options.m_noJustification = true
      ∨ d.m_options.m_breaks = option_BREAKS.BREAKS_none) :
    Page.JustifyHorizontally F idx d
        = some (d.log (Event.enter Stage.JustifyHorizontally idx))
      ∧ (d.log (Event.enter Stage.JustifyHorizontally idx)).m_drawingPageWidth
        = d.m_drawingPageWidth
      ∧ (d.log (Event.enter Stage.JustifyHorizontally idx)).m_pages = d.m_pages
      ∧ ∀ w, Event.process idx (Pass.justifyX w)
          ∉ (d.log (Event.enter Stage.JustifyHorizontally idx)).trace.drop d.trace.length := by
  refine ⟨?_, rfl, rfl, ?_⟩
  · unfold Page.JustifyHorizontally
    rw [hp]
    simp only
    rw [if_pos]
    rcases hoff with h | h
    · exact Or.inr h
    · exact Or.inl h
  · intro w
    simp [Doc.log]

/-- Witness for C11: justification disabled, auto page width configured, and
page 0 run while page 1 is the active drawing page. -/
theorem JustifyHorizontally_disabled_witness :
    Page.JustifyHorizontally exampleFunctors 0
        (exampleTwoPages
          { exampleOptions with m_noJustification := true, m_adjustPageWidth := true } 1)
      = some ((exampleTwoPages
          { exampleOptions with m_noJustification := true, m_adjustPageWidth := true } 1).log
          (Event.enter Stage.JustifyHorizontally 0)) :=
  (JustifyHorizontally_disabled exampleFunctors 0
    (exampleTwoPages
      { exampleOptions with m_noJustification := true, m_adjustPageWidth := true } 1)
    (examplePage false 0 0 0) rfl (Or.inl rfl)).1

/-! ## Header and footer selection -/

theorem Page.GetHeader_running (d : Doc) (idx : Nat) :
    d.running (Page.GetHeader (some d) idx)
      = if d.m_options.m_header = option_HEADER.HEADER_none then none
        else if idx = 0 ∨ d.m_options.m_usePgHeaderForAll = true then d.m_scoreDef.pgHead
        else d.m_scoreDef.pgHead2 := by
  unfold Page.GetHeader
  simp only
  by_cases h1 : d.m_options.m_header = option_HEADER.HEADER_none
  · rw [if_pos h1, if_pos h1]
    rfl
  · rw [if_neg h1, if_neg h1]
    by_cases h2 : idx = 0 ∨ d.m_options.m_usePgHeaderForAll = true
    · rw [if_pos h2, if_pos h2]
      cases h : d.m_scoreDef.pgHead <;> simp [Doc.running, ScoreDef.get, h]
    · rw [if_neg h2, if_neg h2]
      cases h : d.m_scoreDef.pgHead2 <;> simp [Doc.running, ScoreDef.get, h]

theorem Page.GetFooter_running (d : Doc) (idx : Nat) :
    d.running (Page.GetFooter (some d) idx)
      = if d.m_options.m_footer = option_FOOTER.FOOTER_none then none
        else if idx = 0 ∨ d.m_options.m_usePgFooterForAll = true then d.m_scoreDef.pgFoot
        else d.m_scoreDef.pgFoot2 := by
  unfold Page.GetFooter
  simp only
  by_cases h1 : d.m_options.m_footer = option_FOOTER.FOOTER_none
  · rw [if_pos h1, if_pos h1]
    rfl
  · rw [if_neg h1, if_neg h1]
    by_cases h2 : idx = 0 ∨ d.m_options.m_usePgFooterForAll = true
    · rw [if_pos h2, if_pos h2]
      cases h : d.m_scoreDef.pgFoot <;> simp [Doc.running, ScoreDef.get, h]
    · rw [if_neg h2, if_neg h2]
      cases h : d.m_scoreDef.pgFoot2 <;> simp [Doc.running, ScoreDef.get, h]

/-- C12: `Page::GetHeader` returns no element when the page has no document
ancestor or the header option is `HEADER_none`; otherwise it returns `pgHead`
of the score definition when the page is the first page or the
use-header-for-all option is set, and `pgHead2` in every other case; the
result is the same for two documents with the same options and score
definition and two pages that are both first or both not first, whatever
their systems. `Page::GetFooter` obeys the same rule with the footer option,
use-footer-for-all, `pgFoot` and `pgFoot2`. -/
theorem GetHeader_GetFooter_selection (d : Doc) (idx : Nat) :
    (Page.GetHeader none idx = none ∧ Page.GetFooter none idx = none)
      ∧ (d.m_options.m_header = option_HEADER.HEADER_none →
          Page.GetHeader (some d) idx = none)
      ∧ (d.m_options.m_header ≠ option_HEADER.HEADER_none →
          (idx = 0 ∨ d.m_options.m_usePgHeaderForAll = true) →
          d.running (Page.GetHeader (some d) idx) = d.m_scoreDef.pgHead)
      ∧ (d.m_options.m_header ≠ option_HEADER.HEADER_none →
          ¬ (idx = 0 ∨ d.m_options.m_usePgHeaderForAll = true) →
          d.running (Page.GetHeader (some d) idx) = d.m_scoreDef.pgHead2)
      ∧ (d.m_options.m_footer = option_FOOTER.FOOTER_none →
          Page.GetFooter (some d) idx = none)
      ∧ (d.m_options.m_footer ≠ option_FOOTER.FOOTER_none →
          (idx = 0 ∨ d.m_options.m_usePgFooterForAll = true) →
          d.running (Page.GetFooter (some d) idx) = d.m_scoreDef.pgFoot)
      ∧ (d.m_options.m_footer ≠ option_FOOTER.FOOTER_none →
          ¬ (idx = 0 ∨ d.m_options.m_usePgFooterForAll = true) →
          d.running (Page.GetFooter (some d) idx) = d.m_scoreDef.pgFoot2)
      ∧ (∀ (d2 : Doc) (idx2 : Nat), d2.m_options = d.m_options →
          d2.m_scoreDef = d.m_scoreDef → (idx2 = 0 ↔ idx = 0) →
          Page.GetHeader (some d2) idx2 = Page.GetHeader (some d) idx
            ∧ Page.GetFooter (some d2) idx2 = Page.GetFooter (some d) idx) := by
  refine ⟨⟨rfl, rfl⟩, ?_, ?_, ?_, ?_, ?_, ?_, ?_⟩
  · intro h
    unfold Page.GetHeader
    simp only [h, if_true]
  · intro h1 h2
    rw [Page.GetHeader_running, if_neg h1, if_pos h2]
  · intro h1 h2
    rw [Page.GetHeader_running, if_neg h1, if_neg h2]
  · intro h
    unfold Page.GetFooter
    simp only [h, if_true]
  · intro h1 h2
    rw [Page.GetFooter_running, if_neg h1, if_pos h2]
  · intro h1 h2
    rw [Page.GetFooter_running, if_neg h1, if_neg h2]
  · intro d2 idx2 hopt hsd hfirst
    unfold Page.GetHeader Page.GetFooter
    simp only [hopt, hsd, hfirst, and_self]

/-- Witness for C12: with a header and a footer configured and not used for
all pages, page 0 gets `pgHead` and `pgFoot`, page 1 gets `pgHead2` and
`pgFoot2` (absent here), and emptying the pages changes nothing. -/
theorem GetHeader_GetFooter_selection_witness :
    exampleDonePage.running (Page.GetHeader (some exampleDonePage) 0)
        = exampleDonePage.m_scoreDef.pgHead
      ∧ exampleDonePage.running (Page.GetFooter (some exampleDonePage) 0)
        = exampleDonePage.m_scoreDef.pgFoot
      ∧ exampleDonePage.running (Page.GetHeader (some exampleDonePage) 1) = none
      ∧ exampleDonePage.running (Page.GetFooter (some exampleDonePage) 1) = none
      ∧ Page.GetHeader (some { exampleDonePage with m_pages := [] }) 0
        = Page.GetHeader (some exampleDonePage) 0
      ∧ Page.GetHeader (some (exampleDoc exampleOptions [] 0)) 0 = none
      ∧ Page.GetFooter (some (exampleDoc exampleOptions [] 0)) 0 = none :=
  have h0 := GetHeader_GetFooter_selection exampleDonePage 0
  have h1 := GetHeader_GetFooter_selection exampleDonePage 1
  have h2 := GetHeader_GetFooter_selection (exampleDoc exampleOptions [] 0) 0
  ⟨h0.2.2.1 (by decide) (Or.inl rfl), h0.2.2.2.2.2.1 (by decide) (Or.inl rfl),
    h1.2.2.2.1 (by decide) (by decide), h1.2.2.2.2.2.2.1 (by decide) (by decide),
    (h0.2.2.2.2.2.2.2 { exampleDonePage with m_pages := [] } 0 rfl rfl Iff.rfl).1,
    h2.2.1 rfl, h2.2.2.2.2.1 rfl⟩

/-! ## The system-stacking pass -/

theorem Page.AlignSystems_entered (idx : Nat) (params : AlignSystemsParams) (d : Doc)
    (hshift : InInt32 (params.m_shift - Page.headerHeight d idx)) :
    (Page.AlignSystems idx params d).1
      = { m_shift := params.m_shift - Page.headerHeight d idx
          m_systemMargin := params.m_systemMargin
          m_justifiableSystems := 0
          m_justifiableStaves := 0 } := by
  unfold Page.headerHeight at hshift
  unfold Page.AlignSystems Page.headerHeight
  cases hh : Page.GetHeader (some d) idx with
  | none => simp
  | some h =>
    rw [hh] at hshift
    simp only at hshift
    simp [int32_of_inInt32 _ hshift]

theorem Page.AlignSystems_pages (idx : Nat) (params : AlignSystemsParams) (d : Doc) :
    (Page.AlignSystems idx params d).2.m_pages = d.m_pages := by
  unfold Page.AlignSystems
  simp only [Doc.mapRunning_pages]
  cases Page.GetHeader (some d) idx with
  | none => rfl
  | some h => rfl

theorem Page.AlignSystems_margins (idx : Nat) (params : AlignSystemsParams) (d : Doc) :
    (Page.AlignSystems idx params d).2.m_drawingPageMarginBot = d.m_drawingPageMarginBot
      ∧ (Page.AlignSystems idx params d).2.m_drawingPageMarginTop
        = d.m_drawingPageMarginTop := by
  unfold Page.AlignSystems
  rcases Page.GetHeader_cases d idx with hh | hh | hh <;>
    simp only [hh] <;>
    constructor <;>
    (generalize Page.GetFooter _ idx = slot
     cases slot <;> rfl)

theorem Doc.totalHeight_mapRunning (d : Doc) (slot : Option RunningSlot)
    (f : RunningElement → RunningElement) (hf : ∀ r, (f r).m_totalHeight = r.m_totalHeight)
    (s : RunningSlot) : (d.mapRunning slot f).totalHeight s = d.totalHeight s := by
  cases slot with
  | none => rfl
  | some t =>
    cases t <;> cases s <;>
      simp only [Doc.totalHeight, Doc.mapRunning, ScoreDef.map, ScoreDef.get] <;>
      (first
        | rfl
        | (cases d.m_scoreDef.pgHead <;> simp [hf])
        | (cases d.m_scoreDef.pgHead2 <;> simp [hf])
        | (cases d.m_scoreDef.pgFoot <;> simp [hf])
        | (cases d.m_scoreDef.pgFoot2 <;> simp [hf]))

theorem Page.footerHeight_mapRunning (d : Doc) (idx : Nat) (slot : Option RunningSlot)
    (f : RunningElement → RunningElement) (hf : ∀ r, (f r).m_totalHeight = r.m_totalHeight) :
    Page.footerHeight (d.mapRunning slot f) idx = Page.footerHeight d idx := by
  unfold Page.footerHeight
  rw [Page.GetFooter_mapRunning]
  cases Page.GetFooter (some d) idx with
  | none => rfl
  | some s => exact Doc.totalHeight_mapRunning d slot f hf s

theorem Page.AlignSystems_footerHeight (idx : Nat) (params : AlignSystemsParams) (d : Doc) :
    Page.footerHeight (Page.AlignSystems idx params d).2 idx = Page.footerHeight d idx := by
  unfold Page.AlignSystems
  simp only
  refine (Page.footerHeight_mapRunning _ _ _ _ ?_).trans ?_
  · intro r
    rfl
  · cases Page.GetHeader (some d) idx with
    | none => rfl
    | some h =>
      refine Page.footerHeight_mapRunning d idx (some h) _ ?_
      intro r
      rfl

theorem Page.AlignSystemsEnd_pages (idx : Nat) (q : AlignSystemsParams) (x : Doc)
    (hbot : InInt32 (q.m_shift - x.m_drawingPageMarginBot))
    (htop : InInt32 (q.m_shift - x.m_drawingPageMarginBot - x.m_drawingPageMarginTop))
    (hfoot : InInt32 (q.m_shift - x.m_drawingPageMarginBot - x.m_drawingPageMarginTop
      - Page.footerHeight x idx)) :
    (Page.AlignSystemsEnd idx q x).m_pages
      = List.modify (fun p : Page =>
          { p with
            m_drawingJustifiableHeight :=
              q.m_shift - x.m_drawingPageMarginBot - x.m_drawingPageMarginTop
                - Page.footerHeight x idx
            m_drawingJustifiableSystems := q.m_justifiableSystems
            m_drawingJustifiableStaves := q.m_justifiableStaves }) idx x.m_pages := by
  unfold Page.footerHeight at hfoot
  unfold Page.AlignSystemsEnd Page.footerHeight
  cases hf : Page.GetFooter (some x) idx with
  | none => simp [Doc.mapPage, int32_of_inInt32 _ hbot, int32_of_inInt32 _ htop]
  | some s =>
    rw [hf] at hfoot
    simp only at hfoot
    simp [Doc.mapPage, int32_of_inInt32 _ hbot, int32_of_inInt32 _ htop,
      int32_of_inInt32 _ hfoot]

theorem Page.GetHeader_isSome (d : Doc) (idx : Nat) (s : RunningSlot)
    (h : Page.GetHeader (some d) idx = some s) : ∃ r, d.m_scoreDef.get s = some r := by
  unfold Page.GetHeader at h
  simp only at h
  split at h
  · exact absurd h (by simp)
  · split at h
    · split at h
      · rename_i hs
        simp only [Option.some.injEq] at h
        subst h
        exact Option.isSome_iff_exists.mp hs
      · exact absurd h (by simp)
    · split at h
      · rename_i hs
        simp only [Option.some.injEq] at h
        subst h
        exact Option.isSome_iff_exists.mp hs
      · exact absurd h (by simp)

theorem Page.AlignSystems_header (idx : Nat) (params : AlignSystemsParams) (d : Doc)
    (header : RunningSlot) (hh : Page.GetHeader (some d) idx = some header) :
    ((Page.AlignSystems idx params d).2.m_scoreDef.get header).map (fun r => r.m_drawingYRel)
      = some params.m_shift := by
  obtain ⟨r, hr⟩ := Page.GetHeader_isSome d idx header hh
  unfold Page.AlignSystems
  simp only [hh]
  rcases Page.GetHeader_cases d idx with h0 | h0 | h0
  · rw [h0] at hh
    exact absurd hh (by simp)
  · rw [h0] at hh
    simp only [Option.some.injEq] at hh
    subst hh
    simp only [ScoreDef.get] at hr
    simp only [Page.GetFooter_mapRunning]
    rcases Page.GetFooter_cases d idx with hf | hf | hf <;>
      simp [hf, Doc.mapRunning, ScoreDef.map, ScoreDef.get, hr]
  · rw [h0] at hh
    simp only [Option.some.injEq] at hh
    subst hh
    simp only [ScoreDef.get] at hr
    simp only [Page.GetFooter_mapRunning]
    rcases Page.GetFooter_cases d idx with hf | hf | hf <;>
      simp [hf, Doc.mapRunning, ScoreDef.map, ScoreDef.get, hr]

/-- C15: in the system-stacking pass over a page, `Page::AlignSystems` resets
both counts of the pass params to 0 and, when the page has a header, places
the header at the incoming shift and reduces the shift by the header's total
height before any system is stacked; after `Page::AlignSystemsEnd` the page's
justifiable height is the final accumulated shift minus the bottom and the top
page margin, minus the footer's total height when the page has a footer, and
its justifiable system and staff-gap counts are the counts accumulated in the
pass params. The differences are required to be representable as `int`. -/
theorem AlignSystems_justification_metadata (F : Functors) (idx : Nat)
    (params : AlignSystemsParams) (d : Doc) (p : Page) (hp : d.m_pages[idx]? = some p)
    (hshift : InInt32 (params.m_shift - Page.headerHeight d idx))
    (hbot : InInt32
      ((F.alignSystems
        { m_shift := params.m_shift - Page.headerHeight d idx
          m_systemMargin := params.m_systemMargin
          m_justifiableSystems := 0
          m_justifiableStaves := 0 } p.m_children).1.m_shift - d.m_drawingPageMarginBot))
    (htop : InInt32
      ((F.alignSystems
        { m_shift := params.m_shift - Page.headerHeight d idx
          m_systemMargin := params.m_systemMargin
          m_justifiableSystems := 0
          m_justifiableStaves := 0 } p.m_children).1.m_shift - d.m_drawingPageMarginBot
        - d.m_drawingPageMarginTop))
    (hfoot : InInt32
      ((F.alignSystems
        { m_shift := params.m_shift - Page.headerHeight d idx
          m_systemMargin := params.m_systemMargin
          m_justifiableSystems := 0
          m_justifiableStaves := 0 } p.m_children).1.m_shift - d.m_drawingPageMarginBot
        - d.m_drawingPageMarginTop - Page.footerHeight d idx)) :
    (Page.AlignSystems idx params d).1
        = { m_shift := params.m_shift - Page.headerHeight d idx
            m_systemMargin := params.m_systemMargin
            m_justifiableSystems := 0
            m_justifiableStaves := 0 }
      ∧ (Page.ProcessAlignSystems F idx params d).m_pages[idx]?
        = some
          { p with
            m_drawingJustifiableHeight :=
              (F.alignSystems
                { m_shift := params.m_shift - Page.headerHeight d idx
                  m_systemMargin := params.m_systemMargin
                  m_justifiableSystems := 0
                  m_justifiableStaves := 0 } p.m_children).1.m_shift
                - d.m_drawingPageMarginBot - d.m_drawingPageMarginTop
                - Page.footerHeight d idx
            m_drawingJustifiableSystems :=
              (F.alignSystems
                { m_shift := params.m_shift - Page.headerHeight d idx
                  m_systemMargin := params.m_systemMargin
                  m_justifiableSystems := 0
                  m_justifiableStaves := 0 } p.m_children).1.m_justifiableSystems
            m_drawingJustifiableStaves :=
              (F.alignSystems
                { m_shift := params.m_shift - Page.headerHeight d idx
                  m_systemMargin := params.m_systemMargin
                  m_justifiableSystems := 0
                  m_justifiableStaves := 0 } p.m_children).1.m_justifiableStaves
            m_children :=
              (F.alignSystems
                { m_shift := params.m_shift - Page.headerHeight d idx
                  m_systemMargin := params.m_systemMargin
                  m_justifiableSystems := 0
                  m_justifiableStaves := 0 } p.m_children).2 }
      ∧ (∀ header, Page.GetHeader (some d) idx = some header →
          ((Page.ProcessAlignSystems F idx params d).m_scoreDef.get header).map
            (fun r => r.m_drawingYRel) = some params.m_shift)
      ∧ (Page.GetHeader (some d) idx = none →
          (Page.AlignSystems idx params d).1.m_shift = params.m_shift)
      ∧ (Page.GetFooter (some d) idx = none →
          (Page.ProcessAlignSystems F idx params d).m_pages[idx]?.map
              (fun q => q.m_drawingJustifiableHeight)
            = some ((F.alignSystems
                { m_shift := params.m_shift - Page.headerHeight d idx
                  m_systemMargin := params.m_systemMargin
                  m_justifiableSystems := 0
                  m_justifiableStaves := 0 } p.m_children).1.m_shift
                - d.m_drawingPageMarginBot - d.m_drawingPageMarginTop)) := by
  have hentered := Page.AlignSystems_entered idx params
    (d.log (Event.process idx (Pass.alignSystems params.m_shift params.m_systemMargin)))
    hshift
  have hhead : Page.headerHeight
      (d.log (Event.process idx (Pass.alignSystems params.m_shift params.m_systemMargin))) idx
      = Page.headerHeight d idx := rfl
  have hfootEq : Page.footerHeight (Page.AlignSystems idx params
      (d.log (Event.process idx (Pass.alignSystems params.m_shift params.m_systemMargin)))).2
      idx = Page.footerHeight d idx :=
    Page.AlignSystems_footerHeight idx params _
  have hpages := Page.AlignSystems_pages idx params
    (d.log (Event.process idx (Pass.alignSystems params.m_shift params.m_systemMargin)))
  have hmar := Page.AlignSystems_margins idx params
    (d.log (Event.process idx (Pass.alignSystems params.m_shift params.m_systemMargin)))
  have hmarBot : (Page.AlignSystems idx params
      (d.log (Event.process idx
        (Pass.alignSystems params.m_shift params.m_systemMargin)))).2.m_drawingPageMarginBot
      = d.m_drawingPageMarginBot := hmar.1
  have hmarTop : (Page.AlignSystems idx params
      (d.log (Event.process idx
        (Pass.alignSystems params.m_shift params.m_systemMargin)))).2.m_drawingPageMarginTop
      = d.m_drawingPageMarginTop := hmar.2
  have hchildren : (Page.AlignSystems idx params
      (d.log (Event.process idx (Pass.alignSystems params.m_shift params.m_systemMargin)))).2.children
      idx = p.m_children := by
    unfold Doc.children
    rw [hpages]
    show (match d.m_pages[idx]? with
      | some p => p.m_children
      | none => []) = p.m_children
    rw [hp]
  have hpage : (Page.ProcessAlignSystems F idx params d).m_pages[idx]?
      = some
        { p with
          m_drawingJustifiableHeight :=
            (F.alignSystems
              { m_shift := params.m_shift - Page.headerHeight d idx
                m_systemMargin := params.m_systemMargin
                m_justifiableSystems := 0
                m_justifiableStaves := 0 } p.m_children).1.m_shift
              - d.m_drawingPageMarginBot - d.m_drawingPageMarginTop
              - Page.footerHeight d idx
          m_drawingJustifiableSystems :=
            (F.alignSystems
              { m_shift := params.m_shift - Page.headerHeight d idx
                m_systemMargin := params.m_systemMargin
                m_justifiableSystems := 0
                m_justifiableStaves := 0 } p.m_children).1.m_justifiableSystems
          m_drawingJustifiableStaves :=
            (F.alignSystems
              { m_shift := params.m_shift - Page.headerHeight d idx
                m_systemMargin := params.m_systemMargin
                m_justifiableSystems := 0
                m_justifiableStaves := 0 } p.m_children).1.m_justifiableStaves
          m_children :=
            (F.alignSystems
              { m_shift := params.m_shift - Page.headerHeight d idx
                m_systemMargin := params.m_systemMargin
                m_justifiableSystems := 0
                m_justifiableStaves := 0 } p.m_children).2 } := by
    have hf2 : Page.footerHeight ((Page.AlignSystems idx params
        (d.log (Event.process idx
          (Pass.alignSystems params.m_shift params.m_systemMargin)))).2.mapChildren idx
        fun _ => (F.alignSystems
          { m_shift := params.m_shift - Page.headerHeight d idx
            m_systemMargin := params.m_systemMargin
            m_justifiableSystems := 0
            m_justifiableStaves := 0 } p.m_children).2) idx = Page.footerHeight d idx :=
      hfootEq
    unfold Page.ProcessAlignSystems
    simp only
    rw [hchildren, hentered, hhead]
    rw [Page.AlignSystemsEnd_pages idx _ _
      (by show InInt32 (_ - (Page.AlignSystems idx params _).2.m_drawingPageMarginBot)
          rw [hmarBot]; exact hbot)
      (by show InInt32 (_ - (Page.AlignSystems idx params _).2.m_drawingPageMarginBot
            - (Page.AlignSystems idx params _).2.m_drawingPageMarginTop)
          rw [hmarBot, hmarTop]; exact htop)
      (by rw [hf2]
          show InInt32 (_ - (Page.AlignSystems idx params _).2.m_drawingPageMarginBot
            - (Page.AlignSystems idx params _).2.m_drawingPageMarginTop - _)
          rw [hmarBot, hmarTop]; exact hfoot)]
    rw [hf2]
    simp only [Doc.mapChildren, Doc.mapPage, hpages, hmar.1, hmar.2]
    simp [List.getElem?_modify, hp, Doc.log]
  refine ⟨Page.AlignSystems_entered idx params d hshift, hpage, ?_, ?_, ?_⟩
  · intro header hh
    exact Page.AlignSystems_header idx params _ header hh
  · intro hnone
    rw [Page.AlignSystems_entered idx params d hshift]
    simp [Page.headerHeight, hnone]
  · intro hnone
    rw [hpage]
    simp [Page.footerHeight, hnone]

/-- Witness for C15: a page with one system, a header of height 40 and a
footer of height 30, page margins 50 and 50, incoming shift 3000 and stale
counts 7 and 9: the header is placed at 3000, stacking starts from 2960 with
both counts at 0 and ends at 2460, and the page gets justifiable height
2460 - 50 - 50 - 30 = 2330 with 1 justifiable system and 2 staves; without
header and footer the shift stays 3000 and the height is 2500 - 50 - 50. -/
theorem AlignSystems_justification_metadata_witness :
    (Page.AlignSystems 0
        { m_shift := 3000, m_systemMargin := 27, m_justifiableSystems := 7,
          m_justifiableStaves := 9 } exampleDonePage).1
        = { m_shift := 2960, m_systemMargin := 27, m_justifiableSystems := 0,
            m_justifiableStaves := 0 }
      ∧ (Page.ProcessAlignSystems exampleStacking 0
          { m_shift := 3000, m_systemMargin := 27, m_justifiableSystems := 7,
            m_justifiableStaves := 9 } exampleDonePage).m_pages[0]?
        = some (examplePage true 2330 1 2)
      ∧ ((Page.ProcessAlignSystems exampleStacking 0
          { m_shift := 3000, m_systemMargin := 27, m_justifiableSystems := 7,
            m_justifiableStaves := 9 } exampleDonePage).m_scoreDef.get RunningSlot.pgHead).map
          (fun r => r.m_drawingYRel) = some 3000
      ∧ (Page.AlignSystems 0
          { m_shift := 3000, m_systemMargin := 27, m_justifiableSystems := 7,
            m_justifiableStaves := 9 }
          (exampleDoc exampleOptions [examplePage false 0 0 0] 0)).1.m_shift = 3000
      ∧ (Page.ProcessAlignSystems exampleStacking 0
          { m_shift := 3000, m_systemMargin := 27, m_justifiableSystems := 7,
            m_justifiableStaves := 9 }
          (exampleDoc exampleOptions [examplePage false 0 0 0] 0)).m_pages[0]?.map
          (fun q => q.m_drawingJustifiableHeight) = some (2500 - 50 - 50) :=
  have h := AlignSystems_justification_metadata exampleStacking 0
    { m_shift := 3000, m_systemMargin := 27, m_justifiableSystems := 7,
      m_justifiableStaves := 9 } exampleDonePage (examplePage true 300 3 4) rfl
    (by decide) (by decide) (by decide) (by decide)
  have h2 := AlignSystems_justification_metadata exampleStacking 0
    { m_shift := 3000, m_systemMargin := 27, m_justifiableSystems := 7,
      m_justifiableStaves := 9 } (exampleDoc exampleOptions [examplePage false 0 0 0] 0)
    (examplePage false 0 0 0) rfl (by decide) (by decide) (by decide) (by decide)
  ⟨h.1, h.2.1, h.2.2.1 RunningSlot.pgHead rfl, h2.2.2.2.1 rfl, h2.2.2.2.2 rfl⟩

/-! ## The measurement probes of the vertical layout -/

theorem Page.Process_trace (F : Functors) (idx : Nat) (pass : Pass) (d : Doc) :
    (Page.Process F idx pass d).trace = d.trace ++ [Event.process idx pass] := rfl

theorem Page.Draw_trace (F : Functors) (idx : Nat) (mode : BBoxMode) (d : Doc) :
    (Page.Draw F idx mode d).trace = d.trace ++ [Event.draw idx mode] := rfl

theorem Page.ProcessResetVerticalAlignment_trace (F : Functors) (idx : Nat) (d : Doc) :
    (Page.ProcessResetVerticalAlignment F idx d).trace
      = d.trace ++ [Event.process idx Pass.resetVerticalAlignment] := by
  unfold Page.ProcessResetVerticalAlignment Page.ResetVerticalAlignment
  simp [Doc.mapChildren, Doc.mapPage, Doc.mapRunning_trace, Doc.log]

theorem Page.ProcessAlignVertically_trace (F : Functors) (idx : Nat) (d : Doc) :
    (Page.ProcessAlignVertically F idx d).trace
      = d.trace ++ [Event.process idx (Pass.alignVertically none)] := by
  unfold Page.ProcessAlignVertically Page.AlignVerticallyEnd
  simp [Doc.mapChildren, Doc.mapPage, Doc.mapRunning_trace, Doc.log]

theorem Page.ProcessAlignSystems_trace (F : Functors) (idx : Nat)
    (params : AlignSystemsParams) (d : Doc) :
    (Page.ProcessAlignSystems F idx params d).trace
      = d.trace ++ [Event.process idx (Pass.alignSystems params.m_shift params.m_systemMargin)] := by
  unfold Page.ProcessAlignSystems Page.AlignSystemsEnd Page.AlignSystems
  simp only [Doc.mapChildren, Doc.mapPage, Doc.mapRunning_trace]
  cases Page.GetHeader _ idx with
  | none => rfl
  | some h => rfl

theorem Page.LayOutVertically_parts (F : Functors) (idx : Nat) (d : Doc) (p : Page)
    (hp : d.m_pages[idx]? = some p) (hdraw : d.m_drawingPage = some idx) :
    Page.LayOutVertically F idx d
      = some (Page.LayOutVerticallyFromSlurs F idx (Page.LayOutVerticallyToSlurs F idx d)) := by
  unfold Page.LayOutVertically
  rw [hp]
  simp only [hdraw, ne_eq, not_true_eq_false, if_false]
  rfl

theorem Page.LayOutVerticallyToSlurs_trace (F : Functors) (idx : Nat) (d : Doc) :
    (Page.LayOutVerticallyToSlurs F idx d).trace
      = d.trace ++ [Event.enter Stage.LayOutVertically idx,
          Event.process idx Pass.resetVerticalAlignment,
          Event.process idx Pass.calcLedgerLines,
          Event.process idx (Pass.alignVertically none),
          Event.process idx Pass.calcArtic,
          Event.draw idx BBoxMode.full,
          Event.process idx Pass.adjustArticWithSlurs,
          Event.process idx Pass.adjustTupletsY] := by
  unfold Page.LayOutVerticallyToSlurs
  simp only [Page.Process_trace, Page.Draw_trace, Page.ProcessResetVerticalAlignment_trace,
    Page.ProcessAlignVertically_trace, Doc.log, List.append_assoc, List.cons_append,
    List.nil_append]

theorem Page.LayOutVerticallyFromSlurs_trace (F : Functors) (idx : Nat) (d : Doc) :
    ∃ shift margin : Int,
      (Page.LayOutVerticallyFromSlurs F idx d).trace
        = d.trace ++ [Event.process idx Pass.adjustSlurs]
          ++ (if F.m_adjusted (d.children idx) = true then [Event.draw idx BBoxMode.full]
              else [])
          ++ [Event.process idx Pass.setOverflowBBoxes,
            Event.process idx Pass.adjustFloatingPositioners,
            Event.process idx Pass.adjustStaffOverlap,
            Event.process idx Pass.adjustYPos,
            Event.process idx Pass.adjustCrossStaffYPos,
            Event.process idx (Pass.alignSystems shift margin)] := by
  unfold Page.LayOutVerticallyFromSlurs
  cases hadj : F.m_adjusted (d.children idx) <;>
    simp only [Bool.false_eq_true, if_false, if_true, Page.ProcessAlignSystems_trace,
      Doc.mapRunning_trace, Page.Process_trace, Page.Draw_trace, List.append_assoc,
      List.cons_append, List.nil_append, List.append_nil] <;>
    exact ⟨_, _, rfl⟩

/-- C13: one run of `Page::LayOutVertically` executes the full measurement
probe exactly once when the `AdjustSlurs` pass reports no adjustment and
exactly twice when it reports one, never more than twice; the second probe
comes right after the `AdjustSlurs` pass and before the `SetOverflowBBoxes`
pass that gathers the overflow bounding boxes. -/
theorem LayOutVertically_probes (F : Functors) (idx : Nat) (d : Doc) (p : Page)
    (hp : d.m_pages[idx]? = some p) (hdraw : d.m_drawingPage = some idx) :
    ∃ d1 evs shift margin, Page.LayOutVertically F idx d = some d1
      ∧ d1.trace = d.trace ++ evs
      ∧ evs = [Event.enter Stage.LayOutVertically idx,
            Event.process idx Pass.resetVerticalAlignment,
            Event.process idx Pass.calcLedgerLines,
            Event.process idx (Pass.alignVertically none),
            Event.process idx Pass.calcArtic,
            Event.draw idx BBoxMode.full,
            Event.process idx Pass.adjustArticWithSlurs,
            Event.process idx Pass.adjustTupletsY,
            Event.process idx Pass.adjustSlurs]
          ++ (if F.m_adjusted ((Page.LayOutVerticallyToSlurs F idx d).children idx) = true
              then [Event.draw idx BBoxMode.full] else [])
          ++ [Event.process idx Pass.setOverflowBBoxes,
            Event.process idx Pass.adjustFloatingPositioners,
            Event.process idx Pass.adjustStaffOverlap,
            Event.process idx Pass.adjustYPos,
            Event.process idx Pass.adjustCrossStaffYPos,
            Event.process idx (Pass.alignSystems shift margin)]
      ∧ probesOf idx evs
        = (if F.m_adjusted ((Page.LayOutVerticallyToSlurs F idx d).children idx) = true
            then 2 else 1)
      ∧ probesOf idx evs ≤ 2 := by
  obtain ⟨shift, margin, htr⟩ :=
    Page.LayOutVerticallyFromSlurs_trace F idx (Page.LayOutVerticallyToSlurs F idx d)
  rw [Page.LayOutVerticallyToSlurs_trace] at htr
  refine ⟨_, _, shift, margin, Page.LayOutVertically_parts F idx d p hp hdraw, ?_, rfl, ?_, ?_⟩
  · rw [htr]
    simp only [List.append_assoc, List.cons_append, List.nil_append]
  · cases F.m_adjusted ((Page.LayOutVerticallyToSlurs F idx d).children idx) <;>
      simp [probesOf]
  · cases F.m_adjusted ((Page.LayOutVerticallyToSlurs F idx d).children idx) <;>
      simp [probesOf]

/-- Witness for C13: a run in which the `AdjustSlurs` pass reports an
adjustment has two probes, the second between `AdjustSlurs` and
`SetOverflowBBoxes`. -/
theorem LayOutVertically_probes_witness :
    ∃ d1 evs, Page.LayOutVertically exampleSlurs 0 (exampleTwoPages exampleOptions 0) = some d1
      ∧ d1.trace = evs
      ∧ probesOf 0 evs = 2
      ∧ evs.drop 8 = [Event.process 0 Pass.adjustSlurs, Event.draw 0 BBoxMode.full,
          Event.process 0 Pass.setOverflowBBoxes,
          Event.process 0 Pass.adjustFloatingPositioners,
          Event.process 0 Pass.adjustStaffOverlap,
          Event.process 0 Pass.adjustYPos,
          Event.process 0 Pass.adjustCrossStaffYPos,
          Event.process 0 (Pass.alignSystems 3000 27)] := by
  obtain ⟨d1, evs, shift, margin, hrun, htr, _, hn, _⟩ := LayOutVertically_probes exampleSlurs 0
    (exampleTwoPages exampleOptions 0) (examplePage false 0 0 0) rfl rfl
  have hd1 : Page.LayOutVertically exampleSlurs 0 (exampleTwoPages exampleOptions 0)
      = some (Page.LayOutVerticallyFromSlurs exampleSlurs 0
          (Page.LayOutVerticallyToSlurs exampleSlurs 0 (exampleTwoPages exampleOptions 0))) := by
    decide
  rw [hd1] at hrun
  simp only [Option.some.injEq] at hrun
  subst hrun
  have hevs : evs = (Page.LayOutVerticallyFromSlurs exampleSlurs 0
      (Page.LayOutVerticallyToSlurs exampleSlurs 0 (exampleTwoPages exampleOptions 0))).trace := by
    rw [htr]
    rfl
  refine ⟨_, _, hd1, hevs.symm, hn, ?_⟩
  rw [hevs]
  decide

/-! ## The last-page lookback -/

theorem Page.JustifyVerticallyWith_notLast_any (F : Functors) (LP LP2 : Doc → Option Doc)
    (idx : Nat) (d : Doc) (hnl : idx + 1 ≠ d.m_pages.length) :
    Page.JustifyVerticallyWith F LP idx d = Page.JustifyVerticallyWith F LP2 idx d := by
  have hnl1 : ¬ idx + 1
      = (d.log (Event.enter Stage.JustifyVertically idx)).m_pages.length := hnl
  unfold Page.JustifyVerticallyWith
  cases d.m_pages[idx]? with
  | none => rfl
  | some this =>
    simp only
    rw [if_neg hnl1, if_neg hnl1]

theorem Page.JustifyVerticallyWith_notLast_run (F : Functors) (LP : Doc → Option Doc)
    (idx : Nat) (d d1 : Doc) (this : Page) (hthis : d.m_pages[idx]? = some this)
    (hnl : idx + 1 ≠ d.m_pages.length)
    (h : Page.JustifyVerticallyWith F LP idx d = some d1) :
    d1 = d.log (Event.enter Stage.JustifyVertically idx)
      ∨ d1 = Page.Process F idx
          (Pass.justifyY (this.CalcJustificationStepSize d.m_options.m_justifySystemsOnly))
          (d.log (Event.enter Stage.JustifyVertically idx)) := by
  have hnl1 : ¬ idx + 1
      = (d.log (Event.enter Stage.JustifyVertically idx)).m_pages.length := hnl
  unfold Page.JustifyVerticallyWith at h
  rw [hthis] at h
  simp only at h
  rw [if_neg hnl1] at h
  split at h
  · exact absurd h (by simp)
  · split at h
    · simp only [Option.some.injEq] at h
      exact Or.inl h.symm
    · split at h
      · simp only [Option.some.injEq] at h
        exact Or.inl h.symm
      · simp only [Option.some.injEq] at h
        exact Or.inr h.symm

theorem Page.LayOutWith_congr (F : Functors) (JV JV2 : Doc → Option Doc) (idx : Nat)
    (force : Bool) (d : Doc)
    (hJV : ∀ y, y.m_pages.length = d.m_pages.length → JV y = JV2 y) :
    Page.LayOutWith F JV idx force d = Page.LayOutWith F JV2 idx force d := by
  unfold Page.LayOutWith
  cases d.m_pages[idx]? with
  | none => rfl
  | some this =>
    simp only
    split
    · rfl
    · cases h1 : Page.LayOutHorizontally F idx d with
      | none => rfl
      | some a1 =>
        simp only
        cases h2 : Page.JustifyHorizontally F idx a1 with
        | none => rfl
        | some a2 =>
          simp only
          cases h3 : Page.LayOutVertically F idx a2 with
          | none => rfl
          | some a3 =>
            simp only
            have f1 : d.Frame a1 := (Page.LayOutHorizontally_quiet F idx d a1 h1).1
            have f2 : a1.Frame a2 := (Page.JustifyHorizontally_quiet F idx a1 a2 h2).1
            have f3 : a2.Frame a3 := (Page.LayOutVertically_quiet F idx a2 a3 h3).1
            rw [hJV a3 ((f1.andThen f2).andThen f3).1]

theorem Page.LayOut_notLast_any (F : Functors) (k : Nat) (force : Bool) (x : Doc)
    (LP : Doc → Option Doc) (hnl : k + 1 ≠ x.m_pages.length) :
    Page.LayOut F k force x
      = Page.LayOutWith F (Page.JustifyVerticallyWith F LP k) k force x := by
  cases k with
  | zero =>
    rw [Page.LayOut]
    exact Page.LayOutWith_congr F _ _ 0 force x
      (fun y hy => Page.JustifyVerticallyWith_notLast_any F _ LP 0 y (by rw [hy]; exact hnl))
  | succ n =>
    rw [Page.LayOut]
    exact Page.LayOutWith_congr F _ _ (n + 1) force x
      (fun y hy =>
        Page.JustifyVerticallyWith_notLast_any F _ LP (n + 1) y (by rw [hy]; exact hnl))

theorem Page.LayOut_layoutDone (F : Functors) (k : Nat) (force : Bool) (x x1 : Doc)
    (h : Page.LayOut F k force x = some x1) :
    ∃ q, x1.m_pages[k]? = some q ∧ q.m_layoutDone = true := by
  obtain ⟨JV, hJV⟩ := Page.LayOut_eq_with F k force
  have hfr := (Page.LayOut_trace F k force x x1 h).1
  rw [hJV x] at h
  unfold Page.LayOutWith at h
  split at h
  · exact absurd h (by simp)
  · rename_i this hthis
    split at h
    · rename_i hdone
      simp only [Option.some.injEq] at h
      subst h
      refine ⟨this, ?_, hdone.1⟩
      rw [Doc.mapRunning_pages, Doc.mapRunning_pages]
      exact hthis
    · split at h
      · exact absurd h (by simp)
      · split at h
        · exact absurd h (by simp)
        · split at h
          · exact absurd h (by simp)
          · split at h
            · exact absurd h (by simp)
            · rename_i a4 _
              simp only [Option.some.injEq] at h
              have hlt : k < x1.m_pages.length := by
                rw [hfr.1]
                by_contra hge
                rw [List.getElem?_eq_none (Nat.le_of_not_lt hge)] at hthis
                exact absurd hthis (by simp)
              subst h
              simp only [Doc.mapPage, List.length_modify] at hlt
              simp only [Doc.mapPage, List.getElem?_modify, if_true]
              rw [List.getElem?_eq_getElem hlt]
              exact ⟨_, rfl, rfl⟩

theorem Page.JustifyVertically_lastPage_eq (F : Functors) (k : Nat) (d : Doc)
    (this penultimatePage : Page)
    (hthis : d.m_pages[k + 1]? = some this) (hlast : k + 1 + 1 = d.m_pages.length)
    (hdraw : d.m_drawingPage = some (k + 1))
    (hjv : d.m_options.m_justifyVertically = true)
    (hinc : d.m_options.m_justifyIncludeLastPage = true)
    (hpen : d.m_pages[k]? = some penultimatePage)
    (hH : 0 ≤ this.m_drawingJustifiableHeight) :
    Page.JustifyVertically F (k + 1) d
      = match Page.lookedBack F k penultimatePage d with
        | none => none
        | some d1 =>
          match d1.m_pages[k]? with
          | none => none
          | some penultimatePage1 =>
            some (Page.Process F (k + 1)
              (Pass.justifyY
                (if penultimatePage1.CalcJustificationStepSize d.m_options.m_justifySystemsOnly
                    < this.CalcJustificationStepSize d.m_options.m_justifySystemsOnly
                  then penultimatePage1.CalcJustificationStepSize
                    d.m_options.m_justifySystemsOnly
                  else this.CalcJustificationStepSize d.m_options.m_justifySystemsOnly)) d1) := by
  have hpen1 : (d.log (Event.enter Stage.JustifyVertically (k + 1))).m_pages[k]?
      = some penultimatePage := hpen
  have hlast1 : k + 1 + 1
      = (d.log (Event.enter Stage.JustifyVertically (k + 1))).m_pages.length := hlast
  have hjv1 : ¬ (d.log
      (Event.enter Stage.JustifyVertically (k + 1))).m_options.m_justifyVertically
        = false := by
    show ¬ d.m_options.m_justifyVertically = false
    rw [hjv]
    simp
  have hinc1 : ¬ (d.log
      (Event.enter Stage.JustifyVertically (k + 1))).m_options.m_justifyIncludeLastPage
        = false := by
    show ¬ d.m_options.m_justifyIncludeLastPage = false
    rw [hinc]
    simp
  show Page.JustifyVerticallyWith F (fun x => Page.LayOut F k false x) (k + 1) d = _
  unfold Page.JustifyVerticallyWith
  rw [hthis]
  simp only [hdraw, ne_eq, not_true_eq_false, if_false]
  rw [if_neg (not_lt.mpr hH), if_neg hjv1, if_pos hlast1, if_neg hinc1,
    if_pos (Nat.succ_pos k)]
  simp only [Nat.add_sub_cancel]
  rw [hpen1]
  rfl

/-- C14: in the last-page lookback of `Page::JustifyVertically` the
penultimate page is laid out exactly when its `layoutDone` flag is false. When
the flag is set, nothing is laid out and the active drawing page is not
touched. When it is not set, the penultimate page is made the active drawing
page, laid out through its four stages with `layoutDone` set at the end, and
the last page is made the active drawing page again. The layout of the
penultimate page never reaches a further lookback: it is the same whatever
stands for the call `penultimatePage->LayOut()` inside it, and its
`JustifyVertically` only records its entry and at most runs its own JustifyY
pass. -/
theorem JustifyVertically_lookback (F : Functors) (k : Nat) (d : Doc)
    (this penultimatePage : Page)
    (hthis : d.m_pages[k + 1]? = some this) (hlast : k + 1 + 1 = d.m_pages.length)
    (hdraw : d.m_drawingPage = some (k + 1))
    (hjv : d.m_options.m_justifyVertically = true)
    (hinc : d.m_options.m_justifyIncludeLastPage = true)
    (hpen : d.m_pages[k]? = some penultimatePage) :
    (0 ≤ this.m_drawingJustifiableHeight →
        Page.JustifyVertically F (k + 1) d
          = match Page.lookedBack F k penultimatePage d with
            | none => none
            | some d1 =>
              match d1.m_pages[k]? with
              | none => none
              | some penultimatePage1 =>
                some (Page.Process F (k + 1)
                  (Pass.justifyY
                    (if penultimatePage1.CalcJustificationStepSize
                          d.m_options.m_justifySystemsOnly
                        < this.CalcJustificationStepSize d.m_options.m_justifySystemsOnly
                      then penultimatePage1.CalcJustificationStepSize
                        d.m_options.m_justifySystemsOnly
                      else this.CalcJustificationStepSize
                        d.m_options.m_justifySystemsOnly)) d1))
      ∧ (penultimatePage.m_layoutDone = true →
          Page.lookedBack F k penultimatePage d
            = some (d.log (Event.enter Stage.JustifyVertically (k + 1))))
      ∧ (penultimatePage.m_layoutDone = false →
          Page.lookedBack F k penultimatePage d
              = (Page.LayOut F k false
                  ((d.log (Event.enter Stage.JustifyVertically (k + 1))).SetDrawingPage k)).map
                  (fun x => x.SetDrawingPage (k + 1))
            ∧ ((d.log (Event.enter Stage.JustifyVertically (k + 1))).SetDrawingPage
                k).m_drawingPage = some k
            ∧ (∀ d1, Page.lookedBack F k penultimatePage d = some d1 →
                d1.m_drawingPage = some (k + 1)
                  ∧ (∃ q, d1.m_pages[k]? = some q ∧ q.m_layoutDone = true)
                  ∧ ∃ evs, d1.trace
                      = d.trace ++ [Event.enter Stage.JustifyVertically (k + 1),
                          Event.setDrawingPage k] ++ evs ++ [Event.setDrawingPage (k + 1)]
                    ∧ stagesOf k evs = [Stage.LayOutHorizontally, Stage.JustifyHorizontally,
                        Stage.LayOutVertically, Stage.JustifyVertically]
                    ∧ ∀ j, k < j → stagesOf j evs = [])
            ∧ (d.m_options.m_adjustPageWidth = false →
                ∃ d1, Page.lookedBack F k penultimatePage d = some d1))
      ∧ (∀ (x : Doc) (LP : Doc → Option Doc), x.m_pages.length = d.m_pages.length →
          Page.LayOut F k false x
            = Page.LayOutWith F (Page.JustifyVerticallyWith F LP k) k false x)
      ∧ (∀ (x y : Doc) (q : Page), x.m_pages.length = d.m_pages.length →
          x.m_pages[k]? = some q → Page.JustifyVertically F k x = some y →
          y = x.log (Event.enter Stage.JustifyVertically k)
            ∨ y = Page.Process F k
                (Pass.justifyY (q.CalcJustificationStepSize x.m_options.m_justifySystemsOnly))
                (x.log (Event.enter Stage.JustifyVertically k))) := by
  refine ⟨Page.JustifyVertically_lastPage_eq F k d this penultimatePage hthis hlast hdraw hjv
    hinc hpen, ?_, ?_, ?_, ?_⟩
  · intro hdone
    unfold Page.lookedBack Page.layOutPenultimate
    rw [if_neg (by rw [hdone]; simp)]
  · intro hnot
    have heq : Page.lookedBack F k penultimatePage d
        = (Page.LayOut F k false
            ((d.log (Event.enter Stage.JustifyVertically (k + 1))).SetDrawingPage k)).map
            (fun x => x.SetDrawingPage (k + 1)) := by
      unfold Page.lookedBack Page.layOutPenultimate
      rw [if_pos hnot]
      simp only [Nat.add_sub_cancel]
      cases Page.LayOut F k false
        ((d.log (Event.enter Stage.JustifyVertically (k + 1))).SetDrawingPage k) <;> rfl
    refine ⟨heq, rfl, ?_, ?_⟩
    · intro d1 hd1
      rw [heq] at hd1
      cases hx : Page.LayOut F k false
          ((d.log (Event.enter Stage.JustifyVertically (k + 1))).SetDrawingPage k) with
      | none =>
        rw [hx] at hd1
        exact absurd hd1 (by simp)
      | some x1 =>
        rw [hx] at hd1
        simp only [Option.map_some', Option.some.injEq] at hd1
        subst hd1
        obtain ⟨_, evs, htr, hst, hrun⟩ := Page.LayOut_trace F k false _ x1 hx
        refine ⟨rfl, Page.LayOut_layoutDone F k false _ x1 hx, evs, ?_,
          hrun penultimatePage hpen (Or.inl hnot), hst⟩
        simp [Doc.SetDrawingPage, Doc.log, htr]
    · intro hauto
      rw [heq]
      obtain ⟨x1, hx1⟩ := Page.LayOut_isSome F k false
        ((d.log (Event.enter Stage.JustifyVertically (k + 1))).SetDrawingPage k)
        (by show k < d.m_pages.length; omega) rfl hauto
      rw [hx1]
      exact ⟨_, rfl⟩
  · intro x LP hlen
    exact Page.LayOut_notLast_any F k false x LP (by rw [hlen]; omega)
  · intro x y q hlen hq hy
    obtain ⟨LP, hLP, _⟩ := Page.JustifyVertically_eq_with F k x
    rw [hLP] at hy
    exact Page.JustifyVerticallyWith_notLast_run F LP k x y q hq (by rw [hlen]; omega) hy

/-- Witness for C14: with the first of two pages not laid out, the lookback
makes it the active drawing page, lays it out and makes the last page active
again; with the first page already laid out, the lookback only records the
stage entry. -/
theorem JustifyVertically_lookback_witness :
    exampleLookedBack.m_drawingPage = some 1
      ∧ (∃ q, exampleLookedBack.m_pages[0]? = some q ∧ q.m_layoutDone = true)
      ∧ (∃ evs, exampleLookedBack.trace
            = [Event.enter Stage.JustifyVertically 1, Event.setDrawingPage 0] ++ evs
              ++ [Event.setDrawingPage 1]
          ∧ stagesOf 0 evs = [Stage.LayOutHorizontally, Stage.JustifyHorizontally,
              Stage.LayOutVertically, Stage.JustifyVertically])
      ∧ Page.lookedBack exampleFunctors 0 (examplePage true 300 3 4)
          (exampleDoc exampleOptions [examplePage true 300 3 4, examplePage false 500 3 4] 1)
        = some ((exampleDoc exampleOptions
            [examplePage true 300 3 4, examplePage false 500 3 4] 1).log
            (Event.enter Stage.JustifyVertically 1)) := by
  have hB := (JustifyVertically_lookback exampleFunctors 0 (exampleTwoPages exampleOptions 1)
    (examplePage false 500 3 4) (examplePage false 0 0 0) rfl rfl rfl rfl rfl rfl).2.2.1 rfl
  have hA := (JustifyVertically_lookback exampleFunctors 0
    (exampleDoc exampleOptions [examplePage true 300 3 4, examplePage false 500 3 4] 1)
    (examplePage false 500 3 4) (examplePage true 300 3 4) rfl rfl rfl rfl rfl rfl).2.1 rfl
  obtain ⟨hdp, hdone, evs, htr, hst, _⟩ := hB.2.2.1 exampleLookedBack (by decide)
  exact ⟨hdp, hdone, ⟨evs, htr, hst⟩, hA⟩

end vrv
